import Mathlib

/-!
Verification of the gosconf `sconf` configuration CRDT.

The Go source keeps configs and tombstones in maps keyed by strings.  We
embed those maps as association lists (`List (String × β)`): `lookupKey`
models map indexing, `insertKey` models assignment (replace-in-place or
append) and `eraseKey` models `delete`.  Iteration over a map is modelled
as iteration over the list.
-/

namespace Gosconf

/-- Go map indexing `m[k]`: first entry with the key, if any. -/
def lookupKey {β : Type} : List (String × β) → String → Option β
  | [], _ => none
  | (k, v) :: t, key => if k = key then some v else lookupKey t key

/-- Go map assignment `m[k] = v`: replace the entry in place, or append. -/
def insertKey {β : Type} : List (String × β) → String → β → List (String × β)
  | [], key, v => [(key, v)]
  | (k, w) :: t, key, v =>
    if k = key then (key, v) :: t else (k, w) :: insertKey t key v

/-- Go `delete(m, k)`: drop every entry with the key. -/
def eraseKey {β : Type} : List (String × β) → String → List (String × β)
  | [], _ => []
  | (k, w) :: t, key =>
    if k = key then eraseKey t key else (k, w) :: eraseKey t key

/-- Keys of an association list. -/
def keysOf {β : Type} (l : List (String × β)) : List String :=
  l.map Prod.fst

/-- Uniqueness of keys, as Go maps guarantee. -/
def NodupKeys {β : Type} (l : List (String × β)) : Prop :=
  (keysOf l).Nodup

instance {β : Type} (l : List (String × β)) : Decidable (NodupKeys l) := by
  unfold NodupKeys; infer_instance

/-- `Config` from config.go: a typed, versioned configuration record.  The Go
`Data interface{}` payload is a type parameter `α` here; the configuration
system treats it as opaque. -/
structure Config (α : Type) where
  typ : String
  id : String
  version : Nat
  data : α
deriving DecidableEq

/-- `Tombstone` from config.go: marks the config of the same type and ID as
killed at a version. -/
structure Tombstone where
  typ : String
  id : String
  version : Nat
deriving DecidableEq

/-- `Config.Tombstone` from config.go. -/
def Config.toTombstone {α : Type} (config : Config α) : Tombstone :=
  { typ := config.typ, id := config.id, version := config.version }

/-- `ConfigResult` from config.go (the non-empty cases; the Go struct holds at
most one non-nil pointer, and `Get` additionally returns a presence bool that
we fold into an `Option`). -/
inductive ConfigResult (α : Type) where
  | live (config : Config α)
  | dead (tombstone : Tombstone)
deriving DecidableEq

/-- `TypeConfigs` from config.go: per-type maps of live configs and
tombstones keyed by ID. -/
structure TypeConfigs (α : Type) where
  configs : List (String × Config α)
  tombstones : List (String × Tombstone)
deriving DecidableEq

namespace TypeConfigs

/-- The zero value of the Go struct (both maps nil). -/
def empty {α : Type} : TypeConfigs α := ⟨[], []⟩

/-- `TypeConfigs.Get`: the live config if present, else the tombstone. -/
def Get {α : Type} (tc : TypeConfigs α) (ID : String) : Option (ConfigResult α) :=
  match lookupKey tc.configs ID with
  | some config => some (.live config)
  | none =>
    match lookupKey tc.tombstones ID with
    | some tombstone => some (.dead tombstone)
    | none => none

/-- `TypeConfigs.isNewConfig`: a config version is new if strictly greater
than the resident config's, else strictly greater than the resident
tombstone's, else always. -/
def isNewConfig {α : Type} (tc : TypeConfigs α) (ID : String) (version : Nat) : Bool :=
  match lookupKey tc.configs ID with
  | some config => version > config.version
  | none =>
    match lookupKey tc.tombstones ID with
    | some tombstone => version > tombstone.version
    | none => true

/-- `TypeConfigs.isNewTombstone`: like `isNewConfig` but a tombstone also
beats a live config of equal version. -/
def isNewTombstone {α : Type} (tc : TypeConfigs α) (ID : String) (version : Nat) : Bool :=
  match lookupKey tc.configs ID with
  | some config => version ≥ config.version
  | none =>
    match lookupKey tc.tombstones ID with
    | some tombstone => version > tombstone.version
    | none => true

/-- `TypeConfigs.NewConfig`: on accept, store the config and delete any
tombstone for the ID, returning the replaced live config (if any) and
`isNew`. -/
def NewConfig {α : Type} (tc : TypeConfigs α) (config : Config α) :
    TypeConfigs α × Option (Config α) × Bool :=
  if tc.isNewConfig config.id config.version then
    ({ configs := insertKey tc.configs config.id config,
       tombstones := eraseKey tc.tombstones config.id },
     lookupKey tc.configs config.id, true)
  else (tc, none, false)

/-- `TypeConfigs.DeadConfig`: on accept, store the tombstone and delete any
live config for the ID, returning the killed live config (if any) and
`isNew`. -/
def DeadConfig {α : Type} (tc : TypeConfigs α) (tombstone : Tombstone) :
    TypeConfigs α × Option (Config α) × Bool :=
  if tc.isNewTombstone tombstone.id tombstone.version then
    ({ configs := eraseKey tc.configs tombstone.id,
       tombstones := insertKey tc.tombstones tombstone.id tombstone },
     lookupKey tc.configs tombstone.id, true)
  else (tc, none, false)

/-- Config-insertion half of `TypeConfigs.Merge`: iterate the other store's
live configs, apply `NewConfig`, and collect those that were new. -/
def mergeConfigsAux {α : Type} :
    TypeConfigs α → List (String × Config α) → TypeConfigs α × List (Config α)
  | tc, [] => (tc, [])
  | tc, (_, config) :: rest =>
    let r := tc.NewConfig config
    let acc := mergeConfigsAux r.1 rest
    (acc.1, if r.2.2 then config :: acc.2 else acc.2)

/-- Tombstone-insertion half of `TypeConfigs.Merge`. -/
def mergeTombsAux {α : Type} :
    TypeConfigs α → List (String × Tombstone) → TypeConfigs α × List Tombstone
  | tc, [] => (tc, [])
  | tc, (_, tombstone) :: rest =>
    let r := tc.DeadConfig tombstone
    let acc := mergeTombsAux r.1 rest
    (acc.1, if r.2.2 then tombstone :: acc.2 else acc.2)

/-- `TypeConfigs.Merge`: apply all of other's configs then all of its
tombstones, returning the new store and the accepted configs/tombstones. -/
def Merge {α : Type} (tc other : TypeConfigs α) :
    TypeConfigs α × List (Config α) × List Tombstone :=
  let step1 := mergeConfigsAux tc other.configs
  let step2 := mergeTombsAux step1.1 other.tombstones
  (step2.1, step1.2, step2.2)

/-- Config half of `TypeConfigs.Diff`: the acceptance test runs against the
unchanged receiver. -/
def diffConfigsAux {α : Type} (tc : TypeConfigs α) :
    List (String × Config α) → List (Config α)
  | [] => []
  | (_, config) :: rest =>
    if tc.isNewConfig config.id config.version
    then config :: diffConfigsAux tc rest
    else diffConfigsAux tc rest

/-- Tombstone half of `TypeConfigs.Diff`. -/
def diffTombsAux {α : Type} (tc : TypeConfigs α) :
    List (String × Tombstone) → List Tombstone
  | [] => []
  | (_, tombstone) :: rest =>
    if tc.isNewTombstone tombstone.id tombstone.version
    then tombstone :: diffTombsAux tc rest
    else diffTombsAux tc rest

/-- `TypeConfigs.Diff`: the configs and tombstones that `Merge` would accept,
computed without modifying the receiver. -/
def Diff {α : Type} (tc other : TypeConfigs α) : List (Config α) × List Tombstone :=
  (diffConfigsAux tc other.configs, diffTombsAux tc other.tombstones)

/-- `TypeConfigs.Copy`: rebuild both maps entry by entry.  Configs are
re-inserted under their map key, tombstones under `tombstone.ID` (as the Go
loop does). -/
def Copy {α : Type} (tc : TypeConfigs α) : TypeConfigs α :=
  { configs := tc.configs.foldl (fun acc kv => insertKey acc kv.1 kv.2) [],
    tombstones := tc.tombstones.foldl (fun acc kv => insertKey acc kv.2.id kv.2) [] }

/-- `TypeConfigs.Len`. -/
def Len {α : Type} (tc : TypeConfigs α) : Nat :=
  tc.configs.length + tc.tombstones.length

/-- Config loop of `TypeConfigs.UnmarshalJSON`: rebuild the ID-keyed map
from the `live` array, rejecting a duplicated ID. -/
def unmarshalConfigsLoop {α : Type} :
    List (String × Config α) → List (Config α) → Except String (List (String × Config α))
  | acc, [] => .ok acc
  | acc, config :: rest =>
    match lookupKey acc config.id with
    | some _ => .error "duplicate config"
    | none => unmarshalConfigsLoop (insertKey acc config.id config) rest

/-- Tombstone loop of `TypeConfigs.UnmarshalJSON`. -/
def unmarshalTombsLoop :
    List (String × Tombstone) → List Tombstone → Except String (List (String × Tombstone))
  | acc, [] => .ok acc
  | acc, tombstone :: rest =>
    match lookupKey acc tombstone.id with
    | some _ => .error "duplicate tombstone"
    | none => unmarshalTombsLoop (insertKey acc tombstone.id tombstone) rest

/-- `TypeConfigs.UnmarshalJSON`, after the generic JSON decode of the `live`
and `dead` arrays: rebuild the ID-keyed maps, rejecting an ID duplicated
within either array. -/
def unmarshal {α : Type} (live : List (Config α)) (dead : List Tombstone) :
    Except String (TypeConfigs α) := do
  let configs ← unmarshalConfigsLoop [] live
  let tombstones ← unmarshalTombsLoop [] dead
  return { configs := configs, tombstones := tombstones }

/-- Well-formedness maintained by the Go code: unique keys, entries keyed by
their own ID, and no ID present in both maps (the single-state invariant). -/
def Wf {α : Type} (tc : TypeConfigs α) : Prop :=
  NodupKeys tc.configs ∧ NodupKeys tc.tombstones ∧
  (∀ kv ∈ tc.configs, kv.2.id = kv.1) ∧
  (∀ kv ∈ tc.tombstones, kv.2.id = kv.1) ∧
  (∀ kv ∈ tc.configs, lookupKey tc.tombstones kv.1 = none)

instance {α : Type} [DecidableEq α] (tc : TypeConfigs α) : Decidable (tc.Wf) := by
  unfold Wf; infer_instance

end TypeConfigs

/-- `Configs` from config.go: configs and tombstones indexed by type. -/
structure Configs (α : Type) where
  types : List (String × TypeConfigs α)
deriving DecidableEq

namespace Configs

/-- The zero value (`Types` nil). -/
def empty {α : Type} : Configs α := ⟨[]⟩

/-- Value-level reading of `Configs.getState`: the per-type state, or the
zero state when the type is absent.  The Go function also installs the
fresh empty state in the map; the operations below mirror that by writing
the state back with `insertKey`. -/
def getStateVal {α : Type} (cs : Configs α) (typ : String) : TypeConfigs α :=
  (lookupKey cs.types typ).getD TypeConfigs.empty

/-- `Configs.Get`. -/
def Get {α : Type} (cs : Configs α) (typ ID : String) : Option (ConfigResult α) :=
  match lookupKey cs.types typ with
  | some state => state.Get ID
  | none => none

/-- `Configs.NewConfig`: dispatch on the config's type. -/
def NewConfig {α : Type} (cs : Configs α) (config : Config α) :
    Configs α × Option (Config α) × Bool :=
  let r := (cs.getStateVal config.typ).NewConfig config
  (⟨insertKey cs.types config.typ r.1⟩, r.2.1, r.2.2)

/-- `Configs.DeadConfig`: dispatch on the tombstone's type. -/
def DeadConfig {α : Type} (cs : Configs α) (tombstone : Tombstone) :
    Configs α × Option (Config α) × Bool :=
  let r := (cs.getStateVal tombstone.typ).DeadConfig tombstone
  (⟨insertKey cs.types tombstone.typ r.1⟩, r.2.1, r.2.2)

/-- Iteration core of `Configs.Merge` over the other store's type map. -/
def mergeAux {α : Type} :
    Configs α → List (String × TypeConfigs α) → Configs α × List (Config α) × List Tombstone
  | cs, [] => (cs, [], [])
  | cs, (typ, state) :: rest =>
    let r := (cs.getStateVal typ).Merge state
    let acc := mergeAux ⟨insertKey cs.types typ r.1⟩ rest
    (acc.1, r.2.1 ++ acc.2.1, r.2.2 ++ acc.2.2)

/-- `Configs.Merge`: delegate to each of the other store's typed stores. -/
def Merge {α : Type} (cs other : Configs α) :
    Configs α × List (Config α) × List Tombstone :=
  mergeAux cs other.types

/-- Iteration core of `Configs.Diff`; `getState` still installs missing
per-type states, so the (otherwise unchanged) receiver is returned too. -/
def diffAux {α : Type} :
    Configs α → List (String × TypeConfigs α) → Configs α × List (Config α) × List Tombstone
  | cs, [] => (cs, [], [])
  | cs, (typ, state) :: rest =>
    let st := cs.getStateVal typ
    let r := st.Diff state
    let acc := diffAux ⟨insertKey cs.types typ st⟩ rest
    (acc.1, r.1 ++ acc.2.1, r.2 ++ acc.2.2)

/-- `Configs.Diff`. -/
def Diff {α : Type} (cs other : Configs α) :
    Configs α × List (Config α) × List Tombstone :=
  diffAux cs other.types

/-- `Configs.Copy`: deep copy of the type map, copying each typed store. -/
def Copy {α : Type} (cs : Configs α) : Configs α :=
  ⟨cs.types.foldl (fun acc kv => insertKey acc kv.1 kv.2.Copy) []⟩

/-- `Configs.ConfigArray`: all live configs, in type-map then ID-map order. -/
def ConfigArray {α : Type} (cs : Configs α) : List (Config α) :=
  cs.types.flatMap (fun kv => kv.2.configs.map Prod.snd)

/-- `Configs.TombstoneArray`. -/
def TombstoneArray {α : Type} (cs : Configs α) : List Tombstone :=
  cs.types.flatMap (fun kv => kv.2.tombstones.map Prod.snd)

/-- `Configs.Len`. -/
def Len {α : Type} (cs : Configs α) : Nat :=
  (cs.types.map (fun kv => kv.2.Len)).sum

/-- Store-level well-formedness: unique type keys, each typed store
well-formed, and every record filed under its own type. -/
def Wf {α : Type} (cs : Configs α) : Prop :=
  NodupKeys cs.types ∧
  (∀ kv ∈ cs.types, kv.2.Wf) ∧
  (∀ kv ∈ cs.types, ∀ c ∈ kv.2.configs, c.2.typ = kv.1) ∧
  (∀ kv ∈ cs.types, ∀ t ∈ kv.2.tombstones, t.2.typ = kv.1)

instance {α : Type} [DecidableEq α] (cs : Configs α) : Decidable (cs.Wf) := by
  unfold Wf; infer_instance

end Configs

/-- Effect of one incoming config on the entry resident at its ID, read off
the merge rules of config.go. -/
def stepConfig {α : Type} (cur : Option (ConfigResult α)) (config : Config α) :
    Option (ConfigResult α) :=
  match cur with
  | some (.live old) =>
    if config.version > old.version then some (.live config) else some (.live old)
  | some (.dead tomb) =>
    if config.version > tomb.version then some (.live config) else some (.dead tomb)
  | none => some (.live config)

/-- Effect of one incoming tombstone on the entry resident at its ID. -/
def stepTomb {α : Type} (cur : Option (ConfigResult α)) (tombstone : Tombstone) :
    Option (ConfigResult α) :=
  match cur with
  | some (.live old) =>
    if tombstone.version ≥ old.version then some (.dead tombstone) else some (.live old)
  | some (.dead old) =>
    if tombstone.version > old.version then some (.dead tombstone) else some (.dead old)
  | none => some (.dead tombstone)

/-- Effect of merging one (optional) incoming entry over a resident one. -/
def applyEntry {α : Type} (cur incoming : Option (ConfigResult α)) :
    Option (ConfigResult α) :=
  match incoming with
  | none => cur
  | some (.live config) => stepConfig cur config
  | some (.dead tombstone) => stepTomb cur tombstone

/-- Map over the opaque payload; everything else in the record is kept.
The configuration system never inspects payloads, which the theorems below
express as commutation with this map. -/
def Config.mapData {α β : Type} (f : α → β) (c : Config α) : Config β :=
  { typ := c.typ, id := c.id, version := c.version, data := f c.data }

/-- Payload map lifted to a typed store. -/
def TypeConfigs.mapData {α β : Type} (f : α → β) (tc : TypeConfigs α) : TypeConfigs β :=
  { configs := tc.configs.map (fun kv => (kv.1, kv.2.mapData f)),
    tombstones := tc.tombstones }

/-- Payload map lifted to a store. -/
def Configs.mapData {α β : Type} (f : α → β) (cs : Configs α) : Configs β :=
  ⟨cs.types.map (fun kv => (kv.1, kv.2.mapData f))⟩

/-- Forget the opaque payload of an entry (tombstones carry none). -/
def ConfigResult.strip {α : Type} : ConfigResult α → ConfigResult Unit
  | .live c => .live (c.mapData fun _ => ())
  | .dead t => .dead t

/-- Forget the payload of an optional entry. -/
def stripOpt {α : Type} (r : Option (ConfigResult α)) : Option (ConfigResult Unit) :=
  r.map ConfigResult.strip

/-- The `pushConfigs` effect on a bare store: for each type of the incoming
store, apply its configs then its tombstones (the iteration order of
`routerState.PushConfigs`). -/
def Configs.pushStore {α : Type} (cs other : Configs α) : Configs α :=
  other.types.foldl
    (fun acc kv =>
      let acc1 := kv.2.configs.foldl (fun a ckv => (a.NewConfig ckv.2).1) acc
      kv.2.tombstones.foldl (fun a tkv => (a.DeadConfig tkv.2).1) acc1)
    cs

/-- Wire-level fields of a Config after the generic JSON decode (the local
`configJSON` struct inside `Config.UnmarshalJSON`); `data` holds the raw
payload bytes when the field was present. -/
structure ConfigJSON where
  typ : String
  id : String
  ver : Nat
  data : Option String
deriving DecidableEq

/-- `Config.UnmarshalJSON` from config.go, after the generic decode: set the
plain fields; if no `data` was present return immediately; otherwise look the
type name up in the registry and decode the payload with its factory.  A
registry entry bundles `NewConfig` (the factory) with the payload decode
into the fresh object. -/
def Config.unmarshalJSON {α : Type} (registry : List (String × (String → Except String α)))
    (j : ConfigJSON) : Except String (Config (Option α)) :=
  match j.data with
  | none => .ok { typ := j.typ, id := j.id, version := j.ver, data := none }
  | some raw =>
    match lookupKey registry j.typ with
    | none => .error ("unknown config type " ++ j.typ)
    | some dec =>
      match dec raw with
      | .error e => .error e
      | .ok payload => .ok { typ := j.typ, id := j.id, version := j.ver, data := some payload }

/-- Interface of a `Configurable` derived state over a state type `σ`:
`Copy`, `NewConfig`, `DeadConfig` (returning an optional error) and the
`AllowedConfigTypes` of the `Routable` interface (empty list = all types). -/
structure StateOps (α σ : Type) where
  copy : σ → σ
  newConfig : σ → Config α → σ × Option String
  deadConfig : σ → Config α → σ × Option String
  allowed : σ → List String

/-- One observable notification issued by the router state.  Handlers are
side-effect-only consumers identified here by their index in the handler
list; derived states are identified by their registration key. -/
inductive Event (α : Type) where
  | handlerNew (handler : Nat) (config : Config α)
  | handlerDead (handler : Nat) (tombstone : Tombstone)
  | stateDead (key : String) (config : Config α)
  | stateNew (key : String) (config : Config α)
deriving DecidableEq

/-- `routerState` from router.go: the store, the keyed derived states, the
routing tables for derived states (holding registration keys) and the
read-only handler tables (holding handler indices). -/
structure RouterState (α σ : Type) where
  configs : Configs α
  keyedStates : List (String × σ)
  typedStates : List (String × List String)
  untypedStates : List String
  untypedHandlers : List Nat
  typedHandlers : List (String × List Nat)

namespace RouterState

/-- `routerState.registerState` without the duplicate-key panic (a programmer
error per the design; the `Copy` path below only registers fresh keys).  With
`notify` set, replay the current store's configs matching the state's type
filter through its `NewConfig`, dropping errors as the Go loop does. -/
def registerStateCore {α σ : Type} (ops : StateOps α σ) (rs : RouterState α σ)
    (key : String) (obj : σ) (notify : Bool) : RouterState α σ :=
  let types := ops.allowed obj
  if types.isEmpty then
    let obj1 := if notify
      then rs.configs.ConfigArray.foldl (fun o c => (ops.newConfig o c).1) obj
      else obj
    { rs with keyedStates := insertKey rs.keyedStates key obj1,
              untypedStates := rs.untypedStates ++ [key] }
  else
    let obj1 := if notify
      then types.foldl (fun o typ =>
        match lookupKey rs.configs.types typ with
        | some st => st.configs.foldl (fun o2 kv => (ops.newConfig o2 kv.2).1) o
        | none => o) obj
      else obj
    { rs with keyedStates := insertKey rs.keyedStates key obj1,
              typedStates := types.foldl
                (fun m typ => insertKey m typ ((lookupKey m typ).getD [] ++ [key]))
                rs.typedStates }

/-- `routerState.Copy`: deep-copy the store, re-register a copy of every
derived state (rebuilding the routing tables, without replay), share the
handler tables. -/
def Copy {α σ : Type} (ops : StateOps α σ) (rs : RouterState α σ) : RouterState α σ :=
  rs.keyedStates.foldl
    (fun acc kv => registerStateCore ops acc kv.1 (ops.copy kv.2) false)
    { configs := rs.configs.Copy, keyedStates := [], typedStates := [],
      untypedStates := [], untypedHandlers := rs.untypedHandlers,
      typedHandlers := rs.typedHandlers }

/-- The derived-state loop of `routerState.NewConfig`: for each routed key,
call `DeadConfig(replaced)` first when a config was replaced, then
`NewConfig(config)`, collecting errors. -/
def notifyDeadNew {α σ : Type} (ops : StateOps α σ) :
    List (String × σ) → List String → Option (Config α) → Config α →
      List (String × σ) × List (Event α) × List String
  | keyed, [], _, _ => (keyed, [], [])
  | keyed, key :: rest, old, c =>
    match lookupKey keyed key with
    | none => notifyDeadNew ops keyed rest old c
    | some obj =>
      let step :=
        match old with
        | some o =>
          let r1 := ops.deadConfig obj o
          let r2 := ops.newConfig r1.1 c
          (r2.1, [Event.stateDead key o, Event.stateNew key c],
            (r1.2.toList ++ r2.2.toList))
        | none =>
          let r2 := ops.newConfig obj c
          (r2.1, [Event.stateNew key c], r2.2.toList)
      let acc := notifyDeadNew ops (insertKey keyed key step.1) rest old c
      (acc.1, step.2.1 ++ acc.2.1, step.2.2 ++ acc.2.2)

/-- The derived-state loop of `routerState.DeadConfig`: each routed key
receives `DeadConfig(killed)`. -/
def notifyDead {α σ : Type} (ops : StateOps α σ) :
    List (String × σ) → List String → Config α →
      List (String × σ) × List (Event α) × List String
  | keyed, [], _ => (keyed, [], [])
  | keyed, key :: rest, o =>
    match lookupKey keyed key with
    | none => notifyDead ops keyed rest o
    | some obj =>
      let r1 := ops.deadConfig obj o
      let acc := notifyDead ops (insertKey keyed key r1.1) rest o
      (acc.1, Event.stateDead key o :: acc.2.1, r1.2.toList ++ acc.2.2)

/-- `routerState.NewConfig`: insert into the store; if not new, stop.
Otherwise notify untyped then typed handlers, then untyped then typed
derived states (dead-then-new on replacement). -/
def NewConfig {α σ : Type} (ops : StateOps α σ) (rs : RouterState α σ) (c : Config α) :
    RouterState α σ × List (Event α) × List String :=
  let r := rs.configs.NewConfig c
  if r.2.2 then
    let hEv := rs.untypedHandlers.map (fun h => Event.handlerNew h c)
      ++ ((lookupKey rs.typedHandlers c.typ).getD []).map (fun h => Event.handlerNew h c)
    let u := notifyDeadNew ops rs.keyedStates rs.untypedStates r.2.1 c
    let t := notifyDeadNew ops u.1 ((lookupKey rs.typedStates c.typ).getD []) r.2.1 c
    ({ rs with configs := r.1, keyedStates := t.1 },
      hEv ++ u.2.1 ++ t.2.1, u.2.2 ++ t.2.2)
  else ({ rs with configs := r.1 }, [], [])

/-- `routerState.DeadConfig`: insert the tombstone; if not new, stop.
Notify handlers of the tombstone; if a live config was killed, notify the
routed derived states with it. -/
def DeadConfig {α σ : Type} (ops : StateOps α σ) (rs : RouterState α σ) (t : Tombstone) :
    RouterState α σ × List (Event α) × List String :=
  let r := rs.configs.DeadConfig t
  if r.2.2 then
    let hEv := rs.untypedHandlers.map (fun h => Event.handlerDead h t)
      ++ ((lookupKey rs.typedHandlers t.typ).getD []).map (fun h => Event.handlerDead h t)
    match r.2.1 with
    | none => ({ rs with configs := r.1 }, hEv, [])
    | some old =>
      let u := notifyDead ops rs.keyedStates rs.untypedStates old
      let tt := notifyDead ops u.1 ((lookupKey rs.typedStates t.typ).getD []) old
      ({ rs with configs := r.1, keyedStates := tt.1 },
        hEv ++ u.2.1 ++ tt.2.1, u.2.2 ++ tt.2.2)
  else ({ rs with configs := r.1 }, [], [])

/-- `routerState.PushConfigs`: for each type of the incoming store, apply
its configs through `NewConfig` then its tombstones through `DeadConfig`. -/
def PushConfigs {α σ : Type} (ops : StateOps α σ) (rs : RouterState α σ)
    (other : Configs α) : RouterState α σ × List (Event α) × List String :=
  other.types.foldl
    (fun acc kv =>
      let acc1 := kv.2.configs.foldl
        (fun a ckv =>
          let r := NewConfig ops a.1 ckv.2
          (r.1, a.2.1 ++ r.2.1, a.2.2 ++ r.2.2)) acc
      kv.2.tombstones.foldl
        (fun a tkv =>
          let r := DeadConfig ops a.1 tkv.2
          (r.1, a.2.1 ++ r.2.1, a.2.2 ++ r.2.2)) acc1)
    (rs, [], [])

end RouterState

/-- One store mutation enqueued to the router. -/
inductive Mutation (α : Type) where
  | newConfig (c : Config α)
  | deadConfig (t : Tombstone)
  | pushConfigs (cs : Configs α)

/-- Apply a mutation to a router state. -/
def RouterState.applyMutation {α σ : Type} (ops : StateOps α σ) (rs : RouterState α σ) :
    Mutation α → RouterState α σ × List (Event α) × List String
  | .newConfig c => RouterState.NewConfig ops rs c
  | .deadConfig t => RouterState.DeadConfig ops rs t
  | .pushConfigs cs => RouterState.PushConfigs ops rs cs

/-- The mutation's effect on a bare store (no notification side channel). -/
def Configs.applyMutation {α : Type} (cs : Configs α) : Mutation α → Configs α
  | .newConfig c => (cs.NewConfig c).1
  | .deadConfig t => (cs.DeadConfig t).1
  | .pushConfigs other => cs.pushStore other

/-- The router's mutator: the currently published snapshot plus the log of
every snapshot published so far (readers hold entries of that log). -/
structure RouterModel (α σ : Type) where
  current : RouterState α σ
  snaps : List (RouterState α σ)

/-- One mutator iteration: copy the current snapshot, apply the mutation to
the copy, publish the result. -/
def RouterModel.step {α σ : Type} (ops : StateOps α σ) (r : RouterModel α σ)
    (m : Mutation α) : RouterModel α σ :=
  let s := (RouterState.applyMutation ops (RouterState.Copy ops r.current) m).1
  { current := s, snaps := r.snaps ++ [s] }

/-- Process a queue of mutations. -/
def RouterModel.run {α σ : Type} (ops : StateOps α σ) (r : RouterModel α σ)
    (ms : List (Mutation α)) : RouterModel α σ :=
  ms.foldl (RouterModel.step ops) r

/-- A recorder derived state: its state is the list of notifications it has
received, in order. -/
inductive REv (α : Type) where
  | recNew (c : Config α)
  | recDead (c : Config α)
deriving DecidableEq

/-- `Configurable` operations of the recorder state: untyped (no filter),
`Copy` returns the same trace, notifications append. -/
def recorderOps (α : Type) : StateOps α (List (REv α)) :=
  { copy := fun s => s,
    newConfig := fun s c => (s ++ [.recNew c], none),
    deadConfig := fun s c => (s ++ [.recDead c], none),
    allowed := fun _ => [] }

/-- Bytes of the AOF magic tag "e74e1902". -/
def magicBytes : List Nat := [101, 55, 52, 101, 49, 57, 48, 50]

/-- Value of one hex digit byte, upper or lower case (as `strconv.ParseUint`
with base 16 accepts). -/
def hexDigit (b : Nat) : Option Nat :=
  if 48 ≤ b ∧ b ≤ 57 then some (b - 48)
  else if 97 ≤ b ∧ b ≤ 102 then some (b - 97 + 10)
  else if 65 ≤ b ∧ b ≤ 70 then some (b - 65 + 10)
  else none

/-- `strconv.ParseUint(s, 16, 32)` on a byte list: every byte must be a hex
digit, the empty string and values outside 32 bits are errors. -/
def parseHex32 (l : List Nat) : Option Nat :=
  if l.isEmpty then none
  else
    let v := l.foldl
      (fun acc b => match acc, hexDigit b with
        | some a, some d => some (a * 16 + d)
        | _, _ => none)
      (some 0)
    match v with
    | some a => if a < 2 ^ 32 then some a else none
    | none => none

/-- Outcome of `AOFConfigDB.loadLine` on one line (which includes its
trailing newline byte): the updated store with an optional corruption error,
or the slice-out-of-range panic the Go runtime raises when the line is
shorter than the 17-byte header plus newline it indexes unconditionally. -/
inductive LineResult (α : Type) where
  | done (cs : Configs α) (err : Option String)
  | oob
deriving DecidableEq

/-- `AOFConfigDB.loadLine`: slice out magic, CRC, kind byte and body (a
runtime panic if the line is too short for the unchecked slicing), check the
magic, parse and check the CRC over the body, then dispatch on the kind byte
(110 is the letter n for configs, 116 is t for tombstones) and apply the
decoded mutation to the store.  CRC32 and the generic JSON decodes are
collaborators passed in as functions. -/
def loadLine {α : Type} (crc32 : List Nat → Nat)
    (decodeConfig : List Nat → Option (Config α))
    (decodeTomb : List Nat → Option Tombstone)
    (cs : Configs α) (line : List Nat) : LineResult α :=
  if line.length < 18 then .oob
  else
    let magic := line.take 8
    let crcStr := (line.drop 8).take 8
    let head := line.getD 16 0
    let body := (line.drop 17).dropLast
    if magic ≠ magicBytes then .done cs (some "invalid aof magic")
    else
      match parseHex32 crcStr with
      | none => .done cs (some "unable to read crc")
      | some crc =>
        if crc32 body ≠ crc then .done cs (some "CRC mismatch")
        else if head = 110 then
          match decodeConfig body with
          | none => .done cs (some "invalid config json")
          | some config => .done (cs.NewConfig config).1 none
        else if head = 116 then
          match decodeTomb body with
          | none => .done cs (some "invalid tombstone json")
          | some tombstone => .done (cs.DeadConfig tombstone).1 none
        else .done cs (some "unknown aof header")

/-- Outcome of `AOFConfigDB.load`: the loaded store with the corruption flag
(`loadError` set), or the abort caused by a line too short to slice. -/
inductive LoadResult (α : Type) where
  | done (cs : Configs α) (corrupted : Bool)
  | oob
deriving DecidableEq

/-- Line loop of `AOFConfigDB.load`: a line error sets the corruption flag
and the loop continues; a slicing panic aborts everything. -/
def loadAux {α : Type} (crc32 : List Nat → Nat)
    (decodeConfig : List Nat → Option (Config α))
    (decodeTomb : List Nat → Option Tombstone) :
    Configs α → Bool → List (List Nat) → LoadResult α
  | cs, corrupted, [] => .done cs corrupted
  | cs, corrupted, line :: rest =>
    match loadLine crc32 decodeConfig decodeTomb cs line with
    | .done cs2 none => loadAux crc32 decodeConfig decodeTomb cs2 corrupted rest
    | .done cs2 (some _) => loadAux crc32 decodeConfig decodeTomb cs2 true rest
    | .oob => .oob

/-- `AOFConfigDB.load` over a file already split into newline-terminated
lines, starting from the empty store. -/
def aofLoad {α : Type} (crc32 : List Nat → Nat)
    (decodeConfig : List Nat → Option (Config α))
    (decodeTomb : List Nat → Option Tombstone)
    (lines : List (List Nat)) : LoadResult α :=
  loadAux crc32 decodeConfig decodeTomb Configs.empty false lines

@[simp]
theorem keysOf_nil {β : Type} : keysOf ([] : List (String × β)) = [] := rfl

@[simp]
theorem keysOf_cons {β : Type} (k : String) (v : β) (t : List (String × β)) :
    keysOf ((k, v) :: t) = k :: keysOf t := rfl

@[simp]
theorem lookupKey_nil {β : Type} (key : String) :
    lookupKey ([] : List (String × β)) key = none := rfl

@[simp]
theorem lookupKey_cons {β : Type} (k : String) (v : β) (t : List (String × β)) (key : String) :
    lookupKey ((k, v) :: t) key = if k = key then some v else lookupKey t key := rfl

theorem lookupKey_insertKey_self {β : Type} (l : List (String × β)) (key : String) (v : β) :
    lookupKey (insertKey l key v) key = some v := by
  induction l with
  | nil => simp [insertKey]
  | cons hd t ih =>
    obtain ⟨k, w⟩ := hd
    by_cases h : k = key <;> simp [insertKey, h, ih]

theorem lookupKey_insertKey_ne {β : Type} (l : List (String × β)) (key k' : String) (v : β)
    (h : k' ≠ key) : lookupKey (insertKey l key v) k' = lookupKey l k' := by
  have hne : key ≠ k' := Ne.symm h
  induction l with
  | nil => simp [insertKey, hne]
  | cons hd t ih =>
    obtain ⟨k, w⟩ := hd
    by_cases hk : k = key
    · subst hk
      simp [insertKey, lookupKey, hne]
    · simp only [insertKey, if_neg hk, lookupKey_cons]
      by_cases hk' : k = k' <;> simp [hk', ih]

theorem lookupKey_eraseKey_self {β : Type} (l : List (String × β)) (key : String) :
    lookupKey (eraseKey l key) key = none := by
  induction l with
  | nil => simp [eraseKey]
  | cons hd t ih =>
    obtain ⟨k, w⟩ := hd
    by_cases h : k = key <;> simp [eraseKey, h, ih]

theorem lookupKey_eraseKey_ne {β : Type} (l : List (String × β)) (key k' : String)
    (h : k' ≠ key) : lookupKey (eraseKey l key) k' = lookupKey l k' := by
  have hne : key ≠ k' := Ne.symm h
  induction l with
  | nil => simp [eraseKey]
  | cons hd t ih =>
    obtain ⟨k, w⟩ := hd
    by_cases hk : k = key
    · subst hk
      simp [eraseKey, lookupKey, hne, ih]
    · simp only [eraseKey, if_neg hk, lookupKey_cons]
      by_cases hk' : k = k' <;> simp [hk', ih]

theorem lookupKey_some_mem {β : Type} {l : List (String × β)} {key : String} {v : β}
    (h : lookupKey l key = some v) : (key, v) ∈ l := by
  induction l with
  | nil => simp [lookupKey] at h
  | cons hd t ih =>
    obtain ⟨k, w⟩ := hd
    rw [lookupKey_cons] at h
    by_cases hk : k = key
    · rw [if_pos hk] at h
      obtain rfl : w = v := Option.some.inj h
      subst hk
      exact List.mem_cons_self _ _
    · rw [if_neg hk] at h
      exact List.mem_cons_of_mem _ (ih h)

theorem lookupKey_eq_none_of_not_mem {β : Type} {l : List (String × β)} {key : String}
    (h : key ∉ keysOf l) : lookupKey l key = none := by
  induction l with
  | nil => rfl
  | cons hd t ih =>
    obtain ⟨k, w⟩ := hd
    simp only [keysOf_cons, List.mem_cons, not_or] at h
    rw [lookupKey_cons, if_neg (fun hh => h.1 hh.symm), ih h.2]

theorem mem_keysOf_of_lookupKey_some {β : Type} {l : List (String × β)} {key : String} {v : β}
    (h : lookupKey l key = some v) : key ∈ keysOf l := by
  have := lookupKey_some_mem h
  exact List.mem_map.mpr ⟨(key, v), this, rfl⟩

theorem keysOf_insertKey {β : Type} (l : List (String × β)) (key : String) (v : β) :
    keysOf (insertKey l key v) =
      if key ∈ keysOf l then keysOf l else keysOf l ++ [key] := by
  induction l with
  | nil => simp [insertKey]
  | cons hd t ih =>
    obtain ⟨k, w⟩ := hd
    by_cases h : k = key
    · subst h
      simp [insertKey]
    · have hne : key ≠ k := Ne.symm h
      simp only [insertKey, if_neg h, keysOf_cons, List.mem_cons, ih]
      by_cases hmem : key ∈ keysOf t
      · simp [hmem, hne]
      · simp [hmem, hne]

theorem nodupKeys_insertKey {β : Type} {l : List (String × β)} (key : String) (v : β)
    (h : NodupKeys l) : NodupKeys (insertKey l key v) := by
  unfold NodupKeys at h ⊢
  rw [keysOf_insertKey]
  by_cases hmem : key ∈ keysOf l
  · simpa [hmem] using h
  · simp only [hmem, if_false]
    simpa [List.nodup_append] using ⟨h, fun hk => hmem hk⟩

theorem keysOf_eraseKey_subset {β : Type} (l : List (String × β)) (key : String) :
    keysOf (eraseKey l key) ⊆ keysOf l := by
  induction l with
  | nil => simp [eraseKey]
  | cons hd t ih =>
    obtain ⟨k, w⟩ := hd
    by_cases h : k = key
    · simp only [eraseKey, if_pos h, keysOf_cons]
      exact fun x hx => List.mem_cons_of_mem _ (ih hx)
    · simp only [eraseKey, if_neg h, keysOf_cons]
      intro x hx
      rcases List.mem_cons.mp hx with h1 | h2
      · exact List.mem_cons.mpr (Or.inl h1)
      · exact List.mem_cons_of_mem _ (ih h2)

theorem nodupKeys_eraseKey {β : Type} {l : List (String × β)} (key : String)
    (h : NodupKeys l) : NodupKeys (eraseKey l key) := by
  induction l with
  | nil => simpa [eraseKey] using h
  | cons hd t ih =>
    obtain ⟨k, w⟩ := hd
    unfold NodupKeys at h
    simp only [keysOf_cons, List.nodup_cons] at h
    by_cases hk : k = key
    · simp only [eraseKey, if_pos hk]
      exact ih h.2
    · unfold NodupKeys
      simp only [eraseKey, if_neg hk, keysOf_cons, List.nodup_cons]
      exact ⟨fun hmem => h.1 (keysOf_eraseKey_subset t key hmem), ih h.2⟩

theorem mem_insertKey {β : Type} {l : List (String × β)} {key : String} {v : β} {kv : String × β}
    (h : kv ∈ insertKey l key v) : kv = (key, v) ∨ kv ∈ l := by
  induction l with
  | nil => simp [insertKey] at h; exact Or.inl h
  | cons hd t ih =>
    obtain ⟨k, w⟩ := hd
    by_cases hk : k = key
    · subst hk
      simp only [insertKey, if_pos trivial, List.mem_cons] at h
      rcases h with h | h
      · exact Or.inl h
      · exact Or.inr (List.mem_cons_of_mem _ h)
    · simp only [insertKey, if_neg hk, List.mem_cons] at h
      rcases h with h | h
      · exact Or.inr (List.mem_cons.mpr (Or.inl h))
      · rcases ih h with h1 | h2
        · exact Or.inl h1
        · exact Or.inr (List.mem_cons_of_mem _ h2)

theorem mem_eraseKey {β : Type} {l : List (String × β)} {key : String} {kv : String × β}
    (h : kv ∈ eraseKey l key) : kv ∈ l := by
  induction l with
  | nil => simp [eraseKey] at h
  | cons hd t ih =>
    obtain ⟨k, w⟩ := hd
    by_cases hk : k = key
    · simp only [eraseKey, if_pos hk] at h
      exact List.mem_cons_of_mem _ (ih h)
    · simp only [eraseKey, if_neg hk, List.mem_cons] at h
      rcases h with h | h
      · exact List.mem_cons.mpr (Or.inl h)
      · exact List.mem_cons_of_mem _ (ih h)

namespace TypeConfigs

theorem isNew_NewConfig {α : Type} (tc : TypeConfigs α) (c : Config α) :
    (tc.NewConfig c).2.2 = tc.isNewConfig c.id c.version := by
  unfold NewConfig
  by_cases h : tc.isNewConfig c.id c.version <;> simp [h]

theorem isNew_DeadConfig {α : Type} (tc : TypeConfigs α) (t : Tombstone) :
    (tc.DeadConfig t).2.2 = tc.isNewTombstone t.id t.version := by
  unfold DeadConfig
  by_cases h : tc.isNewTombstone t.id t.version <;> simp [h]

theorem Get_NewConfig {α : Type} (tc : TypeConfigs α) (c : Config α) (ID : String) :
    ((tc.NewConfig c).1).Get ID =
      if c.id = ID then stepConfig (tc.Get ID) c else tc.Get ID := by
  by_cases hid : c.id = ID
  · subst hid
    rw [if_pos rfl]
    cases hc : lookupKey tc.configs c.id with
    | some old =>
      by_cases hv : c.version > old.version
      · have hcond : tc.isNewConfig c.id c.version = true := by
          unfold isNewConfig; simp [hc, hv]
        simp [NewConfig, Get, stepConfig, hcond, lookupKey_insertKey_self, hc, hv]
      · have hcond : tc.isNewConfig c.id c.version = false := by
          unfold isNewConfig; simp [hc, hv]
        simp [NewConfig, Get, stepConfig, hcond, hc, hv]
    | none =>
      cases ht : lookupKey tc.tombstones c.id with
      | some tomb =>
        by_cases hv : c.version > tomb.version
        · have hcond : tc.isNewConfig c.id c.version = true := by
            unfold isNewConfig; simp [hc, ht, hv]
          simp [NewConfig, Get, stepConfig, hcond, lookupKey_insertKey_self, hc, ht, hv]
        · have hcond : tc.isNewConfig c.id c.version = false := by
            unfold isNewConfig; simp [hc, ht, hv]
          simp [NewConfig, Get, stepConfig, hcond, hc, ht, hv]
      | none =>
        have hcond : tc.isNewConfig c.id c.version = true := by
          unfold isNewConfig; simp [hc, ht]
        simp [NewConfig, Get, stepConfig, hcond, lookupKey_insertKey_self, hc, ht]
  · rw [if_neg hid]
    unfold NewConfig
    by_cases hnew : tc.isNewConfig c.id c.version
    · simp only [hnew, if_pos]
      unfold Get
      rw [lookupKey_insertKey_ne _ _ _ _ (fun hh => hid hh.symm),
        lookupKey_eraseKey_ne _ _ _ (fun hh => hid hh.symm)]
    · simp [hnew]

theorem Get_DeadConfig {α : Type} (tc : TypeConfigs α) (t : Tombstone) (ID : String) :
    ((tc.DeadConfig t).1).Get ID =
      if t.id = ID then stepTomb (tc.Get ID) t else tc.Get ID := by
  by_cases hid : t.id = ID
  · subst hid
    rw [if_pos rfl]
    cases hc : lookupKey tc.configs t.id with
    | some old =>
      by_cases hv : t.version ≥ old.version
      · have hcond : tc.isNewTombstone t.id t.version = true := by
          unfold isNewTombstone; simp [hc, hv]
        simp [DeadConfig, Get, stepTomb, hcond, lookupKey_eraseKey_self,
          lookupKey_insertKey_self, hc, hv]
      · have hcond : tc.isNewTombstone t.id t.version = false := by
          unfold isNewTombstone; simp [hc, hv]
        simp [DeadConfig, Get, stepTomb, hcond, hc, hv]
    | none =>
      cases ht : lookupKey tc.tombstones t.id with
      | some old =>
        by_cases hv : t.version > old.version
        · have hcond : tc.isNewTombstone t.id t.version = true := by
            unfold isNewTombstone; simp [hc, ht, hv]
          simp [DeadConfig, Get, stepTomb, hcond, lookupKey_eraseKey_self,
            lookupKey_insertKey_self, hc, ht, hv]
        · have hcond : tc.isNewTombstone t.id t.version = false := by
            unfold isNewTombstone; simp [hc, ht, hv]
          simp [DeadConfig, Get, stepTomb, hcond, hc, ht, hv]
      | none =>
        have hcond : tc.isNewTombstone t.id t.version = true := by
          unfold isNewTombstone; simp [hc, ht]
        simp [DeadConfig, Get, stepTomb, hcond, lookupKey_eraseKey_self,
          lookupKey_insertKey_self, hc, ht]
  · rw [if_neg hid]
    unfold DeadConfig
    by_cases hnew : tc.isNewTombstone t.id t.version
    · simp only [hnew, if_pos]
      unfold Get
      rw [lookupKey_insertKey_ne _ _ _ _ (fun hh => hid hh.symm),
        lookupKey_eraseKey_ne _ _ _ (fun hh => hid hh.symm)]
    · simp [hnew]

end TypeConfigs

theorem lookupKey_eq_none_iff {β : Type} (l : List (String × β)) (key : String) :
    lookupKey l key = none ↔ key ∉ keysOf l := by
  constructor
  · intro h hmem
    induction l with
    | nil => simp at hmem
    | cons hd t ih =>
      obtain ⟨k, w⟩ := hd
      rw [lookupKey_cons] at h
      by_cases hk : k = key
      · rw [if_pos hk] at h; exact Option.noConfusion h
      · rw [if_neg hk] at h
        rcases List.mem_cons.mp hmem with h1 | h2
        · exact hk h1.symm
        · exact ih h h2
  · exact lookupKey_eq_none_of_not_mem

theorem mem_eraseKey_ne {β : Type} {l : List (String × β)} {key : String} {kv : String × β}
    (h : kv ∈ eraseKey l key) : kv.1 ≠ key := by
  induction l with
  | nil => simp [eraseKey] at h
  | cons hd t ih =>
    obtain ⟨k, w⟩ := hd
    by_cases hk : k = key
    · simp only [eraseKey, if_pos hk] at h
      exact ih h
    · simp only [eraseKey, if_neg hk, List.mem_cons] at h
      rcases h with h | h
      · subst h; exact hk
      · exact ih h

namespace TypeConfigs

theorem mergeConfigsAux_Get_not_mem {α : Type} (tc : TypeConfigs α)
    (cs : List (String × Config α)) (ID : String)
    (hco : ∀ kv ∈ cs, kv.2.id = kv.1) (hnm : ID ∉ keysOf cs) :
    ((mergeConfigsAux tc cs).1).Get ID = tc.Get ID := by
  induction cs generalizing tc with
  | nil => rfl
  | cons hd rest ih =>
    obtain ⟨k, c⟩ := hd
    simp only [keysOf_cons, List.mem_cons, not_or] at hnm
    have hcid : c.id = k := hco (k, c) (List.mem_cons_self _ _)
    have hne : c.id ≠ ID := fun hh => hnm.1 (hcid ▸ hh).symm
    show ((mergeConfigsAux (tc.NewConfig c).1 rest).1).Get ID = tc.Get ID
    rw [ih _ (fun kv hkv => hco kv (List.mem_cons_of_mem _ hkv)) hnm.2,
      Get_NewConfig, if_neg hne]

theorem mergeConfigsAux_Get_mem {α : Type} (tc : TypeConfigs α)
    (cs : List (String × Config α)) (ID : String) (c : Config α)
    (hnd : NodupKeys cs) (hco : ∀ kv ∈ cs, kv.2.id = kv.1)
    (hc : lookupKey cs ID = some c) :
    ((mergeConfigsAux tc cs).1).Get ID = stepConfig (tc.Get ID) c := by
  induction cs generalizing tc with
  | nil => simp at hc
  | cons hd rest ih =>
    obtain ⟨k, c'⟩ := hd
    have hcid : c'.id = k := hco (k, c') (List.mem_cons_self _ _)
    unfold NodupKeys at hnd
    simp only [keysOf_cons, List.nodup_cons] at hnd
    rw [lookupKey_cons] at hc
    by_cases hk : k = ID
    · rw [if_pos hk] at hc
      obtain rfl : c' = c := Option.some.inj hc
      simp only [mergeConfigsAux]
      rw [mergeConfigsAux_Get_not_mem _ _ _
        (fun kv hkv => hco kv (List.mem_cons_of_mem _ hkv)) (hk ▸ hnd.1),
        Get_NewConfig, if_pos (hcid.trans hk)]
    · rw [if_neg hk] at hc
      have hne : c'.id ≠ ID := fun hh => hk (hcid ▸ hh)
      simp only [mergeConfigsAux]
      rw [ih _ hnd.2 (fun kv hkv => hco kv (List.mem_cons_of_mem _ hkv)) hc,
        Get_NewConfig, if_neg hne]

theorem mergeTombsAux_Get_not_mem {α : Type} (tc : TypeConfigs α)
    (ts : List (String × Tombstone)) (ID : String)
    (hco : ∀ kv ∈ ts, kv.2.id = kv.1) (hnm : ID ∉ keysOf ts) :
    ((mergeTombsAux tc ts).1).Get ID = tc.Get ID := by
  induction ts generalizing tc with
  | nil => rfl
  | cons hd rest ih =>
    obtain ⟨k, t⟩ := hd
    simp only [keysOf_cons, List.mem_cons, not_or] at hnm
    have htid : t.id = k := hco (k, t) (List.mem_cons_self _ _)
    have hne : t.id ≠ ID := fun hh => hnm.1 (htid ▸ hh).symm
    show ((mergeTombsAux (tc.DeadConfig t).1 rest).1).Get ID = tc.Get ID
    rw [ih _ (fun kv hkv => hco kv (List.mem_cons_of_mem _ hkv)) hnm.2,
      Get_DeadConfig, if_neg hne]

theorem mergeTombsAux_Get_mem {α : Type} (tc : TypeConfigs α)
    (ts : List (String × Tombstone)) (ID : String) (t : Tombstone)
    (hnd : NodupKeys ts) (hco : ∀ kv ∈ ts, kv.2.id = kv.1)
    (ht : lookupKey ts ID = some t) :
    ((mergeTombsAux tc ts).1).Get ID = stepTomb (tc.Get ID) t := by
  induction ts generalizing tc with
  | nil => simp at ht
  | cons hd rest ih =>
    obtain ⟨k, t'⟩ := hd
    have htid : t'.id = k := hco (k, t') (List.mem_cons_self _ _)
    unfold NodupKeys at hnd
    simp only [keysOf_cons, List.nodup_cons] at hnd
    rw [lookupKey_cons] at ht
    by_cases hk : k = ID
    · rw [if_pos hk] at ht
      obtain rfl : t' = t := Option.some.inj ht
      simp only [mergeTombsAux]
      rw [mergeTombsAux_Get_not_mem _ _ _
        (fun kv hkv => hco kv (List.mem_cons_of_mem _ hkv)) (hk ▸ hnd.1),
        Get_DeadConfig, if_pos (htid.trans hk)]
    · rw [if_neg hk] at ht
      have hne : t'.id ≠ ID := fun hh => hk (htid ▸ hh)
      simp only [mergeTombsAux]
      rw [ih _ hnd.2 (fun kv hkv => hco kv (List.mem_cons_of_mem _ hkv)) ht,
        Get_DeadConfig, if_neg hne]

/-- Per-ID semantics of `TypeConfigs.Merge`: merging a well-formed store
applies its (unique) entry at each ID over the receiver's entry. -/
theorem Merge_Get {α : Type} (tc other : TypeConfigs α) (h : other.Wf) (ID : String) :
    ((tc.Merge other).1).Get ID = applyEntry (tc.Get ID) (other.Get ID) := by
  obtain ⟨hndC, hndT, hcoC, hcoT, hdisj⟩ := h
  show ((mergeTombsAux (mergeConfigsAux tc other.configs).1 other.tombstones).1).Get ID = _
  cases hc : lookupKey other.configs ID with
  | some c =>
    have htn : lookupKey other.tombstones ID = none := hdisj (ID, c) (lookupKey_some_mem hc)
    have hother : other.Get ID = some (.live c) := by unfold Get; rw [hc]
    rw [mergeTombsAux_Get_not_mem _ _ _ hcoT ((lookupKey_eq_none_iff _ _).mp htn),
      mergeConfigsAux_Get_mem _ _ _ _ hndC hcoC hc, hother]
    rfl
  | none =>
    cases ht : lookupKey other.tombstones ID with
    | some t =>
      have hother : other.Get ID = some (.dead t) := by unfold Get; rw [hc, ht]
      rw [mergeTombsAux_Get_mem _ _ _ _ hndT hcoT ht,
        mergeConfigsAux_Get_not_mem _ _ _ hcoC ((lookupKey_eq_none_iff _ _).mp hc), hother]
      rfl
    | none =>
      have hother : other.Get ID = none := by unfold Get; rw [hc, ht]
      rw [mergeTombsAux_Get_not_mem _ _ _ hcoT ((lookupKey_eq_none_iff _ _).mp ht),
        mergeConfigsAux_Get_not_mem _ _ _ hcoC ((lookupKey_eq_none_iff _ _).mp hc), hother]
      rfl

theorem empty_Wf {α : Type} : (empty : TypeConfigs α).Wf := by
  refine ⟨?_, ?_, ?_, ?_, ?_⟩ <;> simp [empty, NodupKeys]

/-- `NewConfig` preserves the typed-store invariants. -/
theorem Wf_NewConfig {α : Type} {tc : TypeConfigs α} (h : tc.Wf) (c : Config α) :
    ((tc.NewConfig c).1).Wf := by
  obtain ⟨hndC, hndT, hcoC, hcoT, hdisj⟩ := h
  unfold NewConfig
  by_cases hnew : tc.isNewConfig c.id c.version
  · simp only [hnew, if_pos]
    refine ⟨nodupKeys_insertKey _ _ hndC, nodupKeys_eraseKey _ hndT, ?_, ?_, ?_⟩
    · intro kv hkv
      rcases mem_insertKey hkv with h1 | h2
      · subst h1; rfl
      · exact hcoC kv h2
    · exact fun kv hkv => hcoT kv (mem_eraseKey hkv)
    · intro kv hkv
      rcases mem_insertKey hkv with h1 | h2
      · subst h1
        exact lookupKey_eraseKey_self _ _
      · by_cases hk : kv.1 = c.id
        · rw [hk]; exact lookupKey_eraseKey_self _ _
        · rw [lookupKey_eraseKey_ne _ _ _ hk]
          exact hdisj kv h2
  · simpa [hnew] using ⟨hndC, hndT, hcoC, hcoT, hdisj⟩

/-- `DeadConfig` preserves the typed-store invariants. -/
theorem Wf_DeadConfig {α : Type} {tc : TypeConfigs α} (h : tc.Wf) (t : Tombstone) :
    ((tc.DeadConfig t).1).Wf := by
  obtain ⟨hndC, hndT, hcoC, hcoT, hdisj⟩ := h
  unfold DeadConfig
  by_cases hnew : tc.isNewTombstone t.id t.version
  · simp only [hnew, if_pos]
    refine ⟨nodupKeys_eraseKey _ hndC, nodupKeys_insertKey _ _ hndT, ?_, ?_, ?_⟩
    · exact fun kv hkv => hcoC kv (mem_eraseKey hkv)
    · intro kv hkv
      rcases mem_insertKey hkv with h1 | h2
      · subst h1; rfl
      · exact hcoT kv h2
    · intro kv hkv
      have hne : kv.1 ≠ t.id := mem_eraseKey_ne hkv
      rw [lookupKey_insertKey_ne _ _ _ _ hne]
      exact hdisj kv (mem_eraseKey hkv)
  · simpa [hnew] using ⟨hndC, hndT, hcoC, hcoT, hdisj⟩

theorem coh_NewConfig {α : Type} {tc : TypeConfigs α} {T : String}
    (hc : ∀ kv ∈ tc.configs, kv.2.typ = T) (ht : ∀ kv ∈ tc.tombstones, kv.2.typ = T)
    {c : Config α} (hcc : c.typ = T) :
    (∀ kv ∈ ((tc.NewConfig c).1).configs, kv.2.typ = T) ∧
    (∀ kv ∈ ((tc.NewConfig c).1).tombstones, kv.2.typ = T) := by
  unfold NewConfig
  by_cases hnew : tc.isNewConfig c.id c.version
  · simp only [hnew, if_pos]
    constructor
    · intro kv hkv
      rcases mem_insertKey hkv with h1 | h2
      · subst h1; exact hcc
      · exact hc kv h2
    · exact fun kv hkv => ht kv (mem_eraseKey hkv)
  · rw [if_neg hnew]
    exact ⟨hc, ht⟩

theorem coh_DeadConfig {α : Type} {tc : TypeConfigs α} {T : String}
    (hc : ∀ kv ∈ tc.configs, kv.2.typ = T) (ht : ∀ kv ∈ tc.tombstones, kv.2.typ = T)
    {t : Tombstone} (htt : t.typ = T) :
    (∀ kv ∈ ((tc.DeadConfig t).1).configs, kv.2.typ = T) ∧
    (∀ kv ∈ ((tc.DeadConfig t).1).tombstones, kv.2.typ = T) := by
  unfold DeadConfig
  by_cases hnew : tc.isNewTombstone t.id t.version
  · simp only [hnew, if_pos]
    constructor
    · exact fun kv hkv => hc kv (mem_eraseKey hkv)
    · intro kv hkv
      rcases mem_insertKey hkv with h1 | h2
      · subst h1; exact htt
      · exact ht kv h2
  · rw [if_neg hnew]
    exact ⟨hc, ht⟩

end TypeConfigs

namespace Configs

theorem getStateVal_Wf {α : Type} {cs : Configs α} (h : cs.Wf) (typ : String) :
    (cs.getStateVal typ).Wf := by
  unfold getStateVal
  cases hl : lookupKey cs.types typ with
  | some st => exact h.2.1 (typ, st) (lookupKey_some_mem hl)
  | none => exact TypeConfigs.empty_Wf

theorem getStateVal_cohC {α : Type} {cs : Configs α} (h : cs.Wf) (typ : String) :
    ∀ kv ∈ (cs.getStateVal typ).configs, kv.2.typ = typ := by
  unfold getStateVal
  cases hl : lookupKey cs.types typ with
  | some st => exact h.2.2.1 (typ, st) (lookupKey_some_mem hl)
  | none => simp [TypeConfigs.empty]

theorem getStateVal_cohT {α : Type} {cs : Configs α} (h : cs.Wf) (typ : String) :
    ∀ kv ∈ (cs.getStateVal typ).tombstones, kv.2.typ = typ := by
  unfold getStateVal
  cases hl : lookupKey cs.types typ with
  | some st => exact h.2.2.2 (typ, st) (lookupKey_some_mem hl)
  | none => simp [TypeConfigs.empty]

/-- Installing a well-formed, type-coherent state preserves store
well-formedness. -/
theorem Wf_insert_state {α : Type} {cs : Configs α} (h : cs.Wf) {typ : String}
    {st : TypeConfigs α} (hst : st.Wf)
    (hcohC : ∀ kv ∈ st.configs, kv.2.typ = typ)
    (hcohT : ∀ kv ∈ st.tombstones, kv.2.typ = typ) :
    (Configs.mk (insertKey cs.types typ st) : Configs α).Wf := by
  obtain ⟨hnd, hwf, hcC, hcT⟩ := h
  refine ⟨nodupKeys_insertKey _ _ hnd, ?_, ?_, ?_⟩
  · intro kv hkv
    rcases mem_insertKey hkv with h1 | h2
    · subst h1; exact hst
    · exact hwf kv h2
  · intro kv hkv
    rcases mem_insertKey hkv with h1 | h2
    · subst h1; exact hcohC
    · exact hcC kv h2
  · intro kv hkv
    rcases mem_insertKey hkv with h1 | h2
    · subst h1; exact hcohT
    · exact hcT kv h2

/-- `Configs.NewConfig` preserves store well-formedness. -/
theorem store_Wf_NewConfig {α : Type} {cs : Configs α} (h : cs.Wf) (c : Config α) :
    ((cs.NewConfig c).1).Wf := by
  have hcoh := TypeConfigs.coh_NewConfig (getStateVal_cohC h c.typ)
    (getStateVal_cohT h c.typ) (c := c) rfl
  exact Wf_insert_state h (TypeConfigs.Wf_NewConfig (getStateVal_Wf h c.typ) c)
    hcoh.1 hcoh.2

/-- `Configs.DeadConfig` preserves store well-formedness. -/
theorem store_Wf_DeadConfig {α : Type} {cs : Configs α} (h : cs.Wf) (t : Tombstone) :
    ((cs.DeadConfig t).1).Wf := by
  have hcoh := TypeConfigs.coh_DeadConfig (getStateVal_cohC h t.typ)
    (getStateVal_cohT h t.typ) (t := t) rfl
  exact Wf_insert_state h (TypeConfigs.Wf_DeadConfig (getStateVal_Wf h t.typ) t)
    hcoh.1 hcoh.2

end Configs

namespace Configs

theorem getStateVal_Get {α : Type} (cs : Configs α) (typ ID : String) :
    (cs.getStateVal typ).Get ID = cs.Get typ ID := by
  unfold getStateVal Get
  cases hl : lookupKey cs.types typ with
  | some st => rfl
  | none => simp [TypeConfigs.empty, TypeConfigs.Get]

theorem Get_insert_ne {α : Type} (cs : Configs α) (t0 typ ID : String)
    (st : TypeConfigs α) (h : typ ≠ t0) :
    (Configs.mk (insertKey cs.types t0 st)).Get typ ID = cs.Get typ ID := by
  unfold Get
  rw [lookupKey_insertKey_ne _ _ _ _ h]

theorem Get_insert_self {α : Type} (cs : Configs α) (t0 ID : String)
    (st : TypeConfigs α) :
    (Configs.mk (insertKey cs.types t0 st)).Get t0 ID = st.Get ID := by
  unfold Get
  rw [lookupKey_insertKey_self]

theorem mergeAux_Get_not_mem {α : Type} (cs : Configs α)
    (l : List (String × TypeConfigs α)) (typ ID : String)
    (h : typ ∉ keysOf l) :
    ((mergeAux cs l).1).Get typ ID = cs.Get typ ID := by
  induction l generalizing cs with
  | nil => rfl
  | cons hd rest ih =>
    obtain ⟨t0, st0⟩ := hd
    simp only [keysOf_cons, List.mem_cons, not_or] at h
    show ((mergeAux (Configs.mk (insertKey cs.types t0 _)) rest).1).Get typ ID = _
    rw [ih _ h.2, Get_insert_ne _ _ _ _ _ h.1]

theorem mergeAux_Get {α : Type} (cs : Configs α)
    (l : List (String × TypeConfigs α)) (typ ID : String)
    (hnd : NodupKeys l) (hwf : ∀ kv ∈ l, kv.2.Wf) :
    ((mergeAux cs l).1).Get typ ID =
      applyEntry (cs.Get typ ID)
        (match lookupKey l typ with
         | some st => st.Get ID
         | none => none) := by
  induction l generalizing cs with
  | nil => rfl
  | cons hd rest ih =>
    obtain ⟨t0, st0⟩ := hd
    unfold NodupKeys at hnd
    simp only [keysOf_cons, List.nodup_cons] at hnd
    rw [lookupKey_cons]
    by_cases ht : t0 = typ
    · subst ht
      rw [if_pos rfl]
      show ((mergeAux (Configs.mk (insertKey cs.types t0 ((cs.getStateVal t0).Merge st0).1))
        rest).1).Get t0 ID = _
      rw [mergeAux_Get_not_mem _ _ _ _ hnd.1, Get_insert_self,
        TypeConfigs.Merge_Get _ _ (hwf (t0, st0) (List.mem_cons_self _ _)) ID,
        getStateVal_Get]
    · rw [if_neg ht]
      show ((mergeAux (Configs.mk (insertKey cs.types t0 _)) rest).1).Get typ ID = _
      rw [ih _ hnd.2 (fun kv hkv => hwf kv (List.mem_cons_of_mem _ hkv)),
        Get_insert_ne _ _ _ _ _ (fun hh => ht hh.symm)]

/-- Per-identity semantics of `Configs.Merge` against a well-formed incoming
store. -/
theorem store_Merge_Get {α : Type} (A B : Configs α) (hB : B.Wf) (typ ID : String) :
    ((A.Merge B).1).Get typ ID = applyEntry (A.Get typ ID) (B.Get typ ID) := by
  show ((mergeAux A B.types).1).Get typ ID = _
  rw [mergeAux_Get _ _ _ _ hB.1 hB.2.1]
  rfl

end Configs

/-- Coherence of an entry read at `(typ, ID)`: its record carries that type
and ID. -/
def entryCoh {α : Type} (typ ID : String) : Option (ConfigResult α) → Prop
  | none => True
  | some (.live c) => c.typ = typ ∧ c.id = ID
  | some (.dead t) => t.typ = typ ∧ t.id = ID

theorem Get_entryCoh {α : Type} {cs : Configs α} (h : cs.Wf) (typ ID : String) :
    entryCoh typ ID (cs.Get typ ID) := by
  obtain ⟨hnd, hwf, hcC, hcT⟩ := h
  cases hl : lookupKey cs.types typ with
  | none =>
    have hval : cs.Get typ ID = none := by
      unfold Configs.Get; rw [hl]
    rw [hval]; trivial
  | some st =>
    have hmem := lookupKey_some_mem hl
    have hstwf := hwf (typ, st) hmem
    cases hc : lookupKey st.configs ID with
    | some c =>
      have hval : cs.Get typ ID = some (.live c) := by
        unfold Configs.Get TypeConfigs.Get
        simp [hl, hc]
      rw [hval]
      exact ⟨hcC (typ, st) hmem (ID, c) (lookupKey_some_mem hc),
        hstwf.2.2.1 (ID, c) (lookupKey_some_mem hc)⟩
    | none =>
      cases ht : lookupKey st.tombstones ID with
      | some t =>
        have hval : cs.Get typ ID = some (.dead t) := by
          unfold Configs.Get TypeConfigs.Get
          simp [hl, hc, ht]
        rw [hval]
        exact ⟨hcT (typ, st) hmem (ID, t) (lookupKey_some_mem ht),
          hstwf.2.2.2.1 (ID, t) (lookupKey_some_mem ht)⟩
      | none =>
        have hval : cs.Get typ ID = none := by
          unfold Configs.Get TypeConfigs.Get
          simp [hl, hc, ht]
        rw [hval]; trivial

/-- Commutativity of the per-entry merge, up to the payload of a config that
ties in version with the other side's config. -/
theorem applyEntry_comm {α : Type} {typ ID : String} {x y : Option (ConfigResult α)}
    (hx : entryCoh typ ID x) (hy : entryCoh typ ID y) :
    stripOpt (applyEntry x y) = stripOpt (applyEntry y x) := by
  cases x with
  | none =>
    cases y with
    | none => rfl
    | some ry => cases ry with
      | live c => rfl
      | dead t => rfl
  | some rx =>
    cases rx with
    | live c =>
      cases y with
      | none => rfl
      | some ry =>
        cases ry with
        | live d =>
          obtain ⟨hct, hci⟩ := hx
          obtain ⟨hdt, hdi⟩ := hy
          simp only [applyEntry, stepConfig]
          rcases Nat.lt_trichotomy c.version d.version with h | h | h
          · rw [if_pos h, if_neg (by omega)]
          · rw [if_neg (by omega), if_neg (by omega)]
            simp [stripOpt, ConfigResult.strip, Config.mapData, hct, hci, hdt, hdi, h]
          · rw [if_neg (by omega), if_pos h]
        | dead t =>
          simp only [applyEntry, stepConfig, stepTomb]
          rcases Nat.lt_or_ge t.version c.version with h | h
          · rw [if_neg (by omega), if_pos (by omega)]
          · rw [if_pos (by omega), if_neg (by omega)]
    | dead t =>
      cases y with
      | none => rfl
      | some ry =>
        cases ry with
        | live c =>
          simp only [applyEntry, stepConfig, stepTomb]
          rcases Nat.lt_or_ge t.version c.version with h | h
          · rw [if_pos (by omega), if_neg (by omega)]
          · rw [if_neg (by omega), if_pos (by omega)]
        | dead u =>
          obtain ⟨htt, hti⟩ := hx
          obtain ⟨hut, hui⟩ := hy
          simp only [applyEntry, stepTomb]
          rcases Nat.lt_trichotomy t.version u.version with h | h | h
          · rw [if_pos h, if_neg (by omega)]
          · rw [if_neg (by omega), if_neg (by omega)]
            have heq : t = u := by
              have h1 : t.typ = u.typ := htt.trans hut.symm
              have h2 : t.id = u.id := hti.trans hui.symm
              obtain ⟨tt, ti, tv⟩ := t
              obtain ⟨ut, ui, uv⟩ := u
              simp only at h1 h2 h
              rw [h1, h2, h]
            rw [heq]
          · rw [if_neg (by omega), if_pos h]

theorem applyEntry_self {α : Type} (x : Option (ConfigResult α)) :
    applyEntry x x = x := by
  cases x with
  | none => rfl
  | some r =>
    cases r with
    | live c =>
      simp only [applyEntry, stepConfig]
      rw [if_neg (by omega)]
    | dead t =>
      simp only [applyEntry, stepTomb]
      rw [if_neg (by omega)]

namespace Configs

theorem store_isNew_NewConfig {α : Type} (cs : Configs α) (c : Config α) :
    (cs.NewConfig c).2.2 = (cs.getStateVal c.typ).isNewConfig c.id c.version := by
  show ((cs.getStateVal c.typ).NewConfig c).2.2 = _
  rw [TypeConfigs.isNew_NewConfig]

theorem store_isNew_DeadConfig {α : Type} (cs : Configs α) (t : Tombstone) :
    (cs.DeadConfig t).2.2 = (cs.getStateVal t.typ).isNewTombstone t.id t.version := by
  show ((cs.getStateVal t.typ).DeadConfig t).2.2 = _
  rw [TypeConfigs.isNew_DeadConfig]

/-- Per-identity semantics of `Configs.NewConfig`. -/
theorem store_Get_NewConfig {α : Type} (cs : Configs α) (c : Config α) (typ ID : String) :
    ((cs.NewConfig c).1).Get typ ID =
      if c.typ = typ ∧ c.id = ID then stepConfig (cs.Get typ ID) c
      else cs.Get typ ID := by
  unfold Configs.NewConfig
  by_cases htyp : c.typ = typ
  · subst htyp
    rw [Get_insert_self, TypeConfigs.Get_NewConfig, getStateVal_Get]
    by_cases hid : c.id = ID
    · rw [if_pos hid, if_pos ⟨rfl, hid⟩]
    · rw [if_neg hid, if_neg (fun hh => hid hh.2)]
  · rw [Get_insert_ne _ _ _ _ _ (fun hh => htyp hh.symm),
      if_neg (fun hh => htyp hh.1)]

/-- Per-identity semantics of `Configs.DeadConfig`. -/
theorem store_Get_DeadConfig {α : Type} (cs : Configs α) (t : Tombstone) (typ ID : String) :
    ((cs.DeadConfig t).1).Get typ ID =
      if t.typ = typ ∧ t.id = ID then stepTomb (cs.Get typ ID) t
      else cs.Get typ ID := by
  unfold Configs.DeadConfig
  by_cases htyp : t.typ = typ
  · subst htyp
    rw [Get_insert_self, TypeConfigs.Get_DeadConfig, getStateVal_Get]
    by_cases hid : t.id = ID
    · rw [if_pos hid, if_pos ⟨rfl, hid⟩]
    · rw [if_neg hid, if_neg (fun hh => hid hh.2)]
  · rw [Get_insert_ne _ _ _ _ _ (fun hh => htyp hh.symm),
      if_neg (fun hh => htyp hh.1)]

end Configs

/-- A rejected config leaves the resident entry as it was. -/
theorem stepConfig_of_not_new {α : Type} (st : TypeConfigs α) (c : Config α)
    (h : st.isNewConfig c.id c.version = false) :
    stepConfig (st.Get c.id) c = st.Get c.id := by
  unfold TypeConfigs.isNewConfig at h
  cases hc : lookupKey st.configs c.id with
  | some old =>
    rw [hc] at h
    simp only [decide_eq_false_iff_not] at h
    have hval : st.Get c.id = some (.live old) := by
      unfold TypeConfigs.Get; simp [hc]
    rw [hval]
    simp only [stepConfig]
    rw [if_neg (by omega)]
  | none =>
    rw [hc] at h
    cases ht : lookupKey st.tombstones c.id with
    | some tomb =>
      rw [ht] at h
      simp only [decide_eq_false_iff_not] at h
      have hval : st.Get c.id = some (.dead tomb) := by
        unfold TypeConfigs.Get; simp [hc, ht]
      rw [hval]
      simp only [stepConfig]
      rw [if_neg (by omega)]
    | none =>
      rw [ht] at h
      simp at h

/-- A rejected tombstone leaves the resident entry as it was. -/
theorem stepTomb_of_not_new {α : Type} (st : TypeConfigs α) (t : Tombstone)
    (h : st.isNewTombstone t.id t.version = false) :
    stepTomb (st.Get t.id) t = st.Get t.id := by
  unfold TypeConfigs.isNewTombstone at h
  cases hc : lookupKey st.configs t.id with
  | some old =>
    rw [hc] at h
    simp only [decide_eq_false_iff_not] at h
    have hval : st.Get t.id = some (.live old) := by
      unfold TypeConfigs.Get; simp [hc]
    rw [hval]
    simp only [stepTomb]
    rw [if_neg (by omega)]
  | none =>
    rw [hc] at h
    cases ht : lookupKey st.tombstones t.id with
    | some tomb =>
      rw [ht] at h
      simp only [decide_eq_false_iff_not] at h
      have hval : st.Get t.id = some (.dead tomb) := by
        unfold TypeConfigs.Get; simp [hc, ht]
      rw [hval]
      simp only [stepTomb]
      rw [if_neg (by omega)]
    | none =>
      rw [ht] at h
      simp at h

/-- Case analysis of the per-entry merge in both directions: the two results
are fully equal except when both sides hold a live config of the same
version, in which case each direction keeps its own record. -/
theorem applyEntry_comm_cases {α : Type} {typ ID : String} {x y : Option (ConfigResult α)}
    (hx : entryCoh typ ID x) (hy : entryCoh typ ID y) :
    applyEntry x y = applyEntry y x ∨
    (∃ ca cb : Config α, x = some (.live ca) ∧ y = some (.live cb) ∧
      ca.version = cb.version ∧
      applyEntry x y = some (.live ca) ∧ applyEntry y x = some (.live cb)) := by
  cases x with
  | none =>
    cases y with
    | none => exact Or.inl rfl
    | some ry => cases ry with
      | live c => exact Or.inl rfl
      | dead t => exact Or.inl rfl
  | some rx =>
    cases rx with
    | live c =>
      cases y with
      | none => exact Or.inl rfl
      | some ry =>
        cases ry with
        | live d =>
          rcases Nat.lt_trichotomy c.version d.version with h | h | h
          · left
            simp only [applyEntry, stepConfig]
            rw [if_pos h, if_neg (by omega)]
          · right
            refine ⟨c, d, rfl, rfl, h, ?_, ?_⟩
            · simp only [applyEntry, stepConfig]
              rw [if_neg (by omega)]
            · simp only [applyEntry, stepConfig]
              rw [if_neg (by omega)]
          · left
            simp only [applyEntry, stepConfig]
            rw [if_neg (by omega), if_pos h]
        | dead t =>
          left
          simp only [applyEntry, stepConfig, stepTomb]
          rcases Nat.lt_or_ge t.version c.version with h | h
          · rw [if_neg (by omega), if_pos (by omega)]
          · rw [if_pos (by omega), if_neg (by omega)]
    | dead t =>
      cases y with
      | none => exact Or.inl rfl
      | some ry =>
        cases ry with
        | live c =>
          left
          simp only [applyEntry, stepConfig, stepTomb]
          rcases Nat.lt_or_ge t.version c.version with h | h
          · rw [if_pos (by omega), if_neg (by omega)]
          · rw [if_neg (by omega), if_pos (by omega)]
        | dead u =>
          left
          obtain ⟨htt, hti⟩ := hx
          obtain ⟨hut, hui⟩ := hy
          simp only [applyEntry, stepTomb]
          rcases Nat.lt_trichotomy t.version u.version with h | h | h
          · rw [if_pos h, if_neg (by omega)]
          · rw [if_neg (by omega), if_neg (by omega)]
            have heq : t = u := by
              have h1 : t.typ = u.typ := htt.trans hut.symm
              have h2 : t.id = u.id := hti.trans hui.symm
              obtain ⟨tt, ti, tv⟩ := t
              obtain ⟨ut, ui, uv⟩ := u
              simp only at h1 h2 h
              rw [h1, h2, h]
            rw [heq]
          · rw [if_neg (by omega), if_pos h]

/-- C2 counterexample: two stores each holding a config for identity
`(t, a)` at version 1, with different payloads.  Each merge direction keeps
its own record (a version tie rejects the incoming config), so the merged
contents differ in the payload. -/
theorem c2_merge_commutative_counterexample :
    (((⟨[("t", ⟨[("a", ⟨"t", "a", 1, "x"⟩)], []⟩)]⟩ : Configs String).Merge
        ⟨[("t", ⟨[("a", ⟨"t", "a", 1, "y"⟩)], []⟩)]⟩).1).Get "t" "a" ≠
    (((⟨[("t", ⟨[("a", ⟨"t", "a", 1, "y"⟩)], []⟩)]⟩ : Configs String).Merge
        ⟨[("t", ⟨[("a", ⟨"t", "a", 1, "x"⟩)], []⟩)]⟩).1).Get "t" "a" := by
  decide

/-- C2 (amended): for well-formed stores A and B, `copy(A).merge(B)` and
`copy(B).merge(A)` have identical `(type, id) → entry` contents up to the
opaque payload of version-tied configs.  First clause: after erasing config
payloads the contents agree everywhere (kinds, versions, types and ids all
coincide).  Second clause: at every identity the two merge results are in
fact fully equal — payload included — except when A and B each hold a live
config there at the same version, in which case each direction keeps its
own record (A's merge keeps A's config, B's keeps B's). -/
theorem c2_merge_commutative_up_to_payload {α : Type} (A B : Configs α)
    (hA : A.Wf) (hB : B.Wf) (typ ID : String) :
    (stripOpt (((A.Merge B).1).Get typ ID) = stripOpt (((B.Merge A).1).Get typ ID)) ∧
    (((A.Merge B).1).Get typ ID = ((B.Merge A).1).Get typ ID ∨
      ∃ ca cb : Config α, A.Get typ ID = some (.live ca) ∧ B.Get typ ID = some (.live cb) ∧
        ca.version = cb.version ∧
        ((A.Merge B).1).Get typ ID = some (.live ca) ∧
        ((B.Merge A).1).Get typ ID = some (.live cb)) := by
  rw [Configs.store_Merge_Get A B hB, Configs.store_Merge_Get B A hA]
  exact ⟨applyEntry_comm (Get_entryCoh hA typ ID) (Get_entryCoh hB typ ID),
    applyEntry_comm_cases (Get_entryCoh hA typ ID) (Get_entryCoh hB typ ID)⟩

/-- Witness for C2 at concrete well-formed stores: a config at version 2
against a tombstone at version 2. -/
theorem c2_merge_commutative_up_to_payload_witness :
    (⟨[("t", ⟨[("a", ⟨"t", "a", 2, ()⟩)], []⟩)]⟩ : Configs Unit).Wf ∧
    (⟨[("t", ⟨[], [("a", ⟨"t", "a", 2⟩)]⟩)]⟩ : Configs Unit).Wf ∧
    stripOpt ((((⟨[("t", ⟨[("a", ⟨"t", "a", 2, ()⟩)], []⟩)]⟩ : Configs Unit).Merge
        ⟨[("t", ⟨[], [("a", ⟨"t", "a", 2⟩)]⟩)]⟩).1).Get "t" "a") =
      stripOpt ((((⟨[("t", ⟨[], [("a", ⟨"t", "a", 2⟩)]⟩)]⟩ : Configs Unit).Merge
        ⟨[("t", ⟨[("a", ⟨"t", "a", 2, ()⟩)], []⟩)]⟩).1).Get "t" "a") :=
  ⟨by decide, by decide,
    (c2_merge_commutative_up_to_payload _ _ (by decide) (by decide) "t" "a").1⟩

/-- C3: merging a well-formed store into itself leaves its contents
unchanged, and re-applying any individual rejected mutation (one whose
version loses to the resident entry under the acceptance rules) leaves the
store's contents unchanged. -/
theorem c3_merge_idempotent {α : Type} (A : Configs α) (hA : A.Wf)
    (c : Config α) (t : Tombstone)
    (hc : (A.NewConfig c).2.2 = false) (ht : (A.DeadConfig t).2.2 = false) :
    (∀ typ ID, ((A.Merge A).1).Get typ ID = A.Get typ ID) ∧
    (∀ typ ID, ((A.NewConfig c).1).Get typ ID = A.Get typ ID) ∧
    (∀ typ ID, ((A.DeadConfig t).1).Get typ ID = A.Get typ ID) := by
  refine ⟨?_, ?_, ?_⟩
  · intro typ ID
    rw [Configs.store_Merge_Get A A hA, applyEntry_self]
  · intro typ ID
    rw [Configs.store_Get_NewConfig]
    by_cases hcond : c.typ = typ ∧ c.id = ID
    · rw [if_pos hcond]
      obtain ⟨h1, h2⟩ := hcond
      subst h1; subst h2
      rw [Configs.store_isNew_NewConfig] at hc
      rw [← Configs.getStateVal_Get]
      exact stepConfig_of_not_new _ _ hc
    · rw [if_neg hcond]
  · intro typ ID
    rw [Configs.store_Get_DeadConfig]
    by_cases hcond : t.typ = typ ∧ t.id = ID
    · rw [if_pos hcond]
      obtain ⟨h1, h2⟩ := hcond
      subst h1; subst h2
      rw [Configs.store_isNew_DeadConfig] at ht
      rw [← Configs.getStateVal_Get]
      exact stepTomb_of_not_new _ _ ht
    · rw [if_neg hcond]

/-- Witness for C3: the store holding `(t, a)` at version 2, with a rejected
config re-application at version 2 and a rejected tombstone at version 1. -/
theorem c3_merge_idempotent_witness :
    (⟨[("t", ⟨[("a", ⟨"t", "a", 2, ()⟩)], []⟩)]⟩ : Configs Unit).Wf ∧
    (((⟨[("t", ⟨[("a", ⟨"t", "a", 2, ()⟩)], []⟩)]⟩ : Configs Unit).NewConfig
      ⟨"t", "a", 2, ()⟩).2.2 = false) ∧
    (((⟨[("t", ⟨[("a", ⟨"t", "a", 2, ()⟩)], []⟩)]⟩ : Configs Unit).DeadConfig
      ⟨"t", "a", 1⟩).2.2 = false) ∧
    ((((⟨[("t", ⟨[("a", ⟨"t", "a", 2, ()⟩)], []⟩)]⟩ : Configs Unit).Merge
      ⟨[("t", ⟨[("a", ⟨"t", "a", 2, ()⟩)], []⟩)]⟩).1).Get "t" "a" =
      (⟨[("t", ⟨[("a", ⟨"t", "a", 2, ()⟩)], []⟩)]⟩ : Configs Unit).Get "t" "a") :=
  ⟨by decide, by decide, by decide,
    (c3_merge_idempotent _ (by decide) ⟨"t", "a", 2, ()⟩ ⟨"t", "a", 1⟩
      (by decide) (by decide)).1 "t" "a"⟩

theorem unmarshalConfigsLoop_ok {α : Type} (live : List (Config α)) :
    ∀ acc res : List (String × Config α),
    TypeConfigs.unmarshalConfigsLoop acc live = .ok res →
    (NodupKeys acc → NodupKeys res) ∧
    ((∀ kv ∈ acc, kv.2.id = kv.1) → ∀ kv ∈ res, kv.2.id = kv.1) ∧
    (∀ kv ∈ res, kv ∈ acc ∨ kv.2 ∈ live) := by
  induction live with
  | nil =>
    intro acc res h
    obtain rfl : acc = res := by
      simpa [TypeConfigs.unmarshalConfigsLoop] using h
    exact ⟨id, fun hco => hco, fun kv hkv => Or.inl hkv⟩
  | cons c rest ih =>
    intro acc res h
    unfold TypeConfigs.unmarshalConfigsLoop at h
    cases hl : lookupKey acc c.id with
    | some _ =>
      rw [hl] at h
      exact Except.noConfusion h
    | none =>
      rw [hl] at h
      obtain ⟨h1, h2, h3⟩ := ih (insertKey acc c.id c) res h
      refine ⟨fun hnd => h1 (nodupKeys_insertKey _ _ hnd), ?_, ?_⟩
      · intro hco
        refine h2 ?_
        intro kv hkv
        rcases mem_insertKey hkv with hh | hh
        · subst hh; rfl
        · exact hco kv hh
      · intro kv hkv
        rcases h3 kv hkv with hh | hh
        · rcases mem_insertKey hh with h4 | h4
          · exact Or.inr (h4 ▸ List.mem_cons_self _ _)
          · exact Or.inl h4
        · exact Or.inr (List.mem_cons_of_mem _ hh)

theorem unmarshalTombsLoop_ok (dead : List Tombstone) :
    ∀ acc res : List (String × Tombstone),
    TypeConfigs.unmarshalTombsLoop acc dead = .ok res →
    (NodupKeys acc → NodupKeys res) ∧
    ((∀ kv ∈ acc, kv.2.id = kv.1) → ∀ kv ∈ res, kv.2.id = kv.1) ∧
    (∀ kv ∈ res, kv ∈ acc ∨ kv.2 ∈ dead) := by
  induction dead with
  | nil =>
    intro acc res h
    obtain rfl : acc = res := by
      simpa [TypeConfigs.unmarshalTombsLoop] using h
    exact ⟨id, fun hco => hco, fun kv hkv => Or.inl hkv⟩
  | cons t rest ih =>
    intro acc res h
    unfold TypeConfigs.unmarshalTombsLoop at h
    cases hl : lookupKey acc t.id with
    | some _ =>
      rw [hl] at h
      exact Except.noConfusion h
    | none =>
      rw [hl] at h
      obtain ⟨h1, h2, h3⟩ := ih (insertKey acc t.id t) res h
      refine ⟨fun hnd => h1 (nodupKeys_insertKey _ _ hnd), ?_, ?_⟩
      · intro hco
        refine h2 ?_
        intro kv hkv
        rcases mem_insertKey hkv with hh | hh
        · subst hh; rfl
        · exact hco kv hh
      · intro kv hkv
        rcases h3 kv hkv with hh | hh
        · rcases mem_insertKey hh with h4 | h4
          · exact Or.inr (h4 ▸ List.mem_cons_self _ _)
          · exact Or.inl h4
        · exact Or.inr (List.mem_cons_of_mem _ hh)

/-- C4 counterexample: `UnmarshalJSON` accepts a wire form whose `live` and
`dead` arrays both carry the identity `a`, producing a typed store in which
`a` is simultaneously a live config and a tombstone — the single-state
invariant does not hold for the deserialized store. -/
theorem c4_single_state_counterexample :
    (TypeConfigs.unmarshal [⟨"t", "a", 1, ()⟩] [⟨"t", "a", 2⟩]
        : Except String (TypeConfigs Unit)) =
      .ok ⟨[("a", ⟨"t", "a", 1, ()⟩)], [("a", ⟨"t", "a", 2⟩)]⟩ ∧
    ¬ (⟨[("a", ⟨"t", "a", 1, ()⟩)], [("a", ⟨"t", "a", 2⟩)]⟩ : TypeConfigs Unit).Wf := by
  constructor
  · rfl
  · decide

/-- C4 (amended): `insertConfig` and `insertTombstone` preserve the
single-state invariant at every store, and deserializing a typed store
yields maps with unique, ID-coherent keys; the deserialized store satisfies
the single-state invariant whenever the wire form's `live` and `dead` arrays
share no ID (as any wire form serialized from an invariant-satisfying store
does), but not in general. -/
theorem c4_single_state_preserved {α : Type} (cs : Configs α) (hw : cs.Wf)
    (c : Config α) (t : Tombstone)
    (live : List (Config α)) (dead : List Tombstone) (tc : TypeConfigs α)
    (hok : TypeConfigs.unmarshal live dead = .ok tc) :
    ((cs.NewConfig c).1).Wf ∧ ((cs.DeadConfig t).1).Wf ∧
    NodupKeys tc.configs ∧ NodupKeys tc.tombstones ∧
    (∀ kv ∈ tc.configs, kv.2.id = kv.1) ∧
    (∀ kv ∈ tc.tombstones, kv.2.id = kv.1) ∧
    ((∀ cc ∈ live, ∀ tt ∈ dead, cc.id ≠ tt.id) → tc.Wf) := by
  have hsplit : ∃ cfgs tombs,
      TypeConfigs.unmarshalConfigsLoop [] live = .ok cfgs ∧
      TypeConfigs.unmarshalTombsLoop [] dead = .ok tombs ∧
      tc = ⟨cfgs, tombs⟩ := by
    unfold TypeConfigs.unmarshal at hok
    cases h1 : TypeConfigs.unmarshalConfigsLoop ([] : List (String × Config α)) live with
    | error e => rw [h1] at hok; exact Except.noConfusion hok
    | ok cfgs =>
      rw [h1] at hok
      cases h2 : TypeConfigs.unmarshalTombsLoop [] dead with
      | error e => rw [h2] at hok; exact Except.noConfusion hok
      | ok tombs =>
        rw [h2] at hok
        simp only [Except.bind, Except.pure, pure] at hok
        exact ⟨cfgs, tombs, rfl, rfl, (Except.ok.inj hok).symm⟩
  obtain ⟨cfgs, tombs, h1, h2, rfl⟩ := hsplit
  obtain ⟨hnd1, hco1, hm1⟩ := unmarshalConfigsLoop_ok live [] cfgs h1
  obtain ⟨hnd2, hco2, hm2⟩ := unmarshalTombsLoop_ok dead [] tombs h2
  have hndC : NodupKeys cfgs := hnd1 (by simp [NodupKeys])
  have hndT : NodupKeys tombs := hnd2 (by simp [NodupKeys])
  have hcoC : ∀ kv ∈ cfgs, kv.2.id = kv.1 := hco1 (by simp)
  have hcoT : ∀ kv ∈ tombs, kv.2.id = kv.1 := hco2 (by simp)
  refine ⟨Configs.store_Wf_NewConfig hw c, Configs.store_Wf_DeadConfig hw t,
    hndC, hndT, hcoC, hcoT, ?_⟩
  intro hdisj
  refine ⟨hndC, hndT, hcoC, hcoT, ?_⟩
  intro kv hkv
  cases hl : lookupKey tombs kv.1 with
  | none => rfl
  | some v =>
    exfalso
    have hvm := lookupKey_some_mem hl
    have hvd : v ∈ dead := by
      rcases hm2 (kv.1, v) hvm with hh | hh
      · simp at hh
      · exact hh
    have hcl : kv.2 ∈ live := by
      rcases hm1 kv hkv with hh | hh
      · simp at hh
      · exact hh
    have hvid : v.id = kv.1 := hcoT (kv.1, v) hvm
    have hcid : kv.2.id = kv.1 := hcoC kv hkv
    exact hdisj kv.2 hcl v hvd (hcid.trans hvid.symm)

/-- Witness for C4 at a concrete store and wire form with disjoint IDs. -/
theorem c4_single_state_preserved_witness :
    (⟨[("t", ⟨[("a", ⟨"t", "a", 1, ()⟩)], []⟩)]⟩ : Configs Unit).Wf ∧
    (TypeConfigs.unmarshal [⟨"t", "a", 1, ()⟩] [⟨"t", "b", 2⟩]
        : Except String (TypeConfigs Unit)) =
      .ok ⟨[("a", ⟨"t", "a", 1, ()⟩)], [("b", ⟨"t", "b", 2⟩)]⟩ ∧
    (⟨[("a", ⟨"t", "a", 1, ()⟩)], [("b", ⟨"t", "b", 2⟩)]⟩ : TypeConfigs Unit).Wf :=
  ⟨by decide, rfl,
    (c4_single_state_preserved
      (⟨[("t", ⟨[("a", ⟨"t", "a", 1, ()⟩)], []⟩)]⟩ : Configs Unit)
      (by decide) ⟨"t", "a", 2, ()⟩ ⟨"t", "a", 3⟩
      [⟨"t", "a", 1, ()⟩] [⟨"t", "b", 2⟩] _ rfl).2.2.2.2.2.2 (by decide)⟩

namespace TypeConfigs

theorem lookups_NewConfig_ne {α : Type} (tc : TypeConfigs α) (c : Config α) (ID : String)
    (h : c.id ≠ ID) :
    lookupKey ((tc.NewConfig c).1).configs ID = lookupKey tc.configs ID ∧
    lookupKey ((tc.NewConfig c).1).tombstones ID = lookupKey tc.tombstones ID := by
  unfold NewConfig
  by_cases hnew : tc.isNewConfig c.id c.version
  · simp only [hnew, if_pos]
    exact ⟨lookupKey_insertKey_ne _ _ _ _ (fun hh => h hh.symm),
      lookupKey_eraseKey_ne _ _ _ (fun hh => h hh.symm)⟩
  · simp [hnew]

theorem lookups_DeadConfig_ne {α : Type} (tc : TypeConfigs α) (t : Tombstone) (ID : String)
    (h : t.id ≠ ID) :
    lookupKey ((tc.DeadConfig t).1).configs ID = lookupKey tc.configs ID ∧
    lookupKey ((tc.DeadConfig t).1).tombstones ID = lookupKey tc.tombstones ID := by
  unfold DeadConfig
  by_cases hnew : tc.isNewTombstone t.id t.version
  · simp only [hnew, if_pos]
    exact ⟨lookupKey_eraseKey_ne _ _ _ (fun hh => h hh.symm),
      lookupKey_insertKey_ne _ _ _ _ (fun hh => h hh.symm)⟩
  · simp [hnew]

theorem isNewConfig_congr {α : Type} {tc1 tc2 : TypeConfigs α} {ID : String}
    (h1 : lookupKey tc1.configs ID = lookupKey tc2.configs ID)
    (h2 : lookupKey tc1.tombstones ID = lookupKey tc2.tombstones ID) (v : Nat) :
    tc1.isNewConfig ID v = tc2.isNewConfig ID v := by
  unfold isNewConfig
  rw [h1, h2]

theorem isNewTombstone_congr {α : Type} {tc1 tc2 : TypeConfigs α} {ID : String}
    (h1 : lookupKey tc1.configs ID = lookupKey tc2.configs ID)
    (h2 : lookupKey tc1.tombstones ID = lookupKey tc2.tombstones ID) (v : Nat) :
    tc1.isNewTombstone ID v = tc2.isNewTombstone ID v := by
  unfold isNewTombstone
  rw [h1, h2]

theorem mergeConfigsAux_lookups {α : Type} (cs : List (String × Config α)) :
    ∀ (tc : TypeConfigs α) (ID : String), ID ∉ keysOf cs →
    (∀ kv ∈ cs, kv.2.id = kv.1) →
    lookupKey ((mergeConfigsAux tc cs).1).configs ID = lookupKey tc.configs ID ∧
    lookupKey ((mergeConfigsAux tc cs).1).tombstones ID = lookupKey tc.tombstones ID := by
  induction cs with
  | nil => exact fun tc ID _ _ => ⟨rfl, rfl⟩
  | cons hd rest ih =>
    intro tc ID hnm hco
    obtain ⟨k, c⟩ := hd
    simp only [keysOf_cons, List.mem_cons, not_or] at hnm
    have hcid : c.id ≠ ID := fun hh =>
      hnm.1 ((hco (k, c) (List.mem_cons_self _ _)) ▸ hh).symm
    have hstep := lookups_NewConfig_ne tc c ID hcid
    have hrest := ih (tc.NewConfig c).1 ID hnm.2
      (fun kv hkv => hco kv (List.mem_cons_of_mem _ hkv))
    exact ⟨hrest.1.trans hstep.1, hrest.2.trans hstep.2⟩

theorem mergeConfigsAux_collected {α : Type} (cs : List (String × Config α)) :
    ∀ tc tc0 : TypeConfigs α, NodupKeys cs → (∀ kv ∈ cs, kv.2.id = kv.1) →
    (∀ kv ∈ cs, tc.isNewConfig kv.2.id kv.2.version = tc0.isNewConfig kv.2.id kv.2.version) →
    (mergeConfigsAux tc cs).2 = diffConfigsAux tc0 cs := by
  induction cs with
  | nil => exact fun _ _ _ _ _ => rfl
  | cons hd rest ih =>
    intro tc tc0 hnd hco hsame
    obtain ⟨k, c⟩ := hd
    unfold NodupKeys at hnd
    simp only [keysOf_cons, List.nodup_cons] at hnd
    have hcid : c.id = k := hco (k, c) (List.mem_cons_self _ _)
    have hrest : (mergeConfigsAux (tc.NewConfig c).1 rest).2 = diffConfigsAux tc0 rest := by
      refine ih _ _ hnd.2 (fun kv hkv => hco kv (List.mem_cons_of_mem _ hkv)) ?_
      intro kv hkv
      have hne : c.id ≠ kv.2.id := by
        intro hh
        have := hco kv (List.mem_cons_of_mem _ hkv)
        apply hnd.1
        rw [← hcid, hh, this]
        exact List.mem_map.mpr ⟨kv, hkv, rfl⟩
      have hl := lookups_NewConfig_ne tc c kv.2.id hne
      rw [isNewConfig_congr hl.1 hl.2]
      exact hsame kv (List.mem_cons_of_mem _ hkv)
    show ((mergeConfigsAux (tc.NewConfig c).1 rest).1,
      if (tc.NewConfig c).2.2 then c :: (mergeConfigsAux (tc.NewConfig c).1 rest).2
      else (mergeConfigsAux (tc.NewConfig c).1 rest).2).2 = _
    rw [isNew_NewConfig, hsame (k, c) (List.mem_cons_self _ _)]
    unfold diffConfigsAux
    by_cases hd0 : tc0.isNewConfig c.id c.version
    · rw [if_pos hd0]
      simp only [hd0, if_pos]
      rw [hrest]
    · rw [if_neg hd0]
      simp only [hd0, Bool.false_eq_true, if_neg]
      rw [hrest]
      simp

theorem mergeTombsAux_collected {α : Type} (ts : List (String × Tombstone)) :
    ∀ tc tc0 : TypeConfigs α, NodupKeys ts → (∀ kv ∈ ts, kv.2.id = kv.1) →
    (∀ kv ∈ ts, tc.isNewTombstone kv.2.id kv.2.version =
      tc0.isNewTombstone kv.2.id kv.2.version) →
    (mergeTombsAux tc ts).2 = diffTombsAux tc0 ts := by
  induction ts with
  | nil => exact fun _ _ _ _ _ => rfl
  | cons hd rest ih =>
    intro tc tc0 hnd hco hsame
    obtain ⟨k, t⟩ := hd
    unfold NodupKeys at hnd
    simp only [keysOf_cons, List.nodup_cons] at hnd
    have htid : t.id = k := hco (k, t) (List.mem_cons_self _ _)
    have hrest : (mergeTombsAux (tc.DeadConfig t).1 rest).2 = diffTombsAux tc0 rest := by
      refine ih _ _ hnd.2 (fun kv hkv => hco kv (List.mem_cons_of_mem _ hkv)) ?_
      intro kv hkv
      have hne : t.id ≠ kv.2.id := by
        intro hh
        have := hco kv (List.mem_cons_of_mem _ hkv)
        apply hnd.1
        rw [← htid, hh, this]
        exact List.mem_map.mpr ⟨kv, hkv, rfl⟩
      have hl := lookups_DeadConfig_ne tc t kv.2.id hne
      rw [isNewTombstone_congr hl.1 hl.2]
      exact hsame kv (List.mem_cons_of_mem _ hkv)
    show ((mergeTombsAux (tc.DeadConfig t).1 rest).1,
      if (tc.DeadConfig t).2.2 then t :: (mergeTombsAux (tc.DeadConfig t).1 rest).2
      else (mergeTombsAux (tc.DeadConfig t).1 rest).2).2 = _
    rw [isNew_DeadConfig, hsame (k, t) (List.mem_cons_self _ _)]
    unfold diffTombsAux
    by_cases hd0 : tc0.isNewTombstone t.id t.version
    · rw [if_pos hd0]
      simp only [hd0, if_pos]
      rw [hrest]
    · rw [if_neg hd0]
      simp only [hd0, Bool.false_eq_true, if_neg]
      rw [hrest]
      simp

/-- The lists returned by `Merge` coincide with those returned by `Diff`
against a well-formed incoming store. -/
theorem Merge_eq_Diff {α : Type} (tc other : TypeConfigs α) (h : other.Wf) :
    (tc.Merge other).2.1 = (tc.Diff other).1 ∧
    (tc.Merge other).2.2 = (tc.Diff other).2 := by
  obtain ⟨hndC, hndT, hcoC, hcoT, hdisj⟩ := h
  constructor
  · exact mergeConfigsAux_collected _ tc tc hndC hcoC (fun _ _ => rfl)
  · refine mergeTombsAux_collected _ _ tc hndT hcoT ?_
    intro kv hkv
    have hnotin : kv.2.id ∉ keysOf other.configs := by
      intro hmem
      cases hc : lookupKey other.configs kv.2.id with
      | none =>
        rw [lookupKey_eq_none_iff] at hc
        exact hc hmem
      | some c =>
        have hdn := hdisj (kv.2.id, c) (lookupKey_some_mem hc)
        rw [lookupKey_eq_none_iff] at hdn
        apply hdn
        have hkvid : kv.2.id = kv.1 := hcoT kv hkv
        rw [hkvid]
        exact List.mem_map.mpr ⟨kv, hkv, rfl⟩
    have hl := mergeConfigsAux_lookups other.configs tc kv.2.id hnotin hcoC
    exact isNewTombstone_congr hl.1 hl.2 _

end TypeConfigs

namespace Configs

/-- `Configs.Diff` adds at most empty per-type states: reading through `Get`
is unchanged. -/
theorem diffAux_Get {α : Type} (l : List (String × TypeConfigs α)) :
    ∀ (cs : Configs α) (typ ID : String),
    ((diffAux cs l).1).Get typ ID = cs.Get typ ID := by
  induction l with
  | nil => exact fun _ _ _ => rfl
  | cons hd rest ih =>
    intro cs typ ID
    obtain ⟨t0, st0⟩ := hd
    show ((diffAux (Configs.mk (insertKey cs.types t0 (cs.getStateVal t0))) rest).1).Get typ ID = _
    rw [ih]
    by_cases ht : typ = t0
    · subst ht
      rw [Get_insert_self, getStateVal_Get]
    · rw [Get_insert_ne _ _ _ _ _ ht]

theorem diffAux_lists {α : Type} (l : List (String × TypeConfigs α)) :
    ∀ (csD csM : Configs α), NodupKeys l → (∀ kv ∈ l, kv.2.Wf) →
    (∀ typ ∈ keysOf l, lookupKey csD.types typ = lookupKey csM.types typ) →
    (diffAux csD l).2.1 = (mergeAux csM l).2.1 ∧
    (diffAux csD l).2.2 = (mergeAux csM l).2.2 := by
  induction l with
  | nil => exact fun _ _ _ _ _ => ⟨rfl, rfl⟩
  | cons hd rest ih =>
    intro csD csM hnd hwf hlk
    obtain ⟨t0, st0⟩ := hd
    unfold NodupKeys at hnd
    simp only [keysOf_cons, List.nodup_cons] at hnd
    have hst : csD.getStateVal t0 = csM.getStateVal t0 := by
      unfold getStateVal
      rw [hlk t0 (List.mem_cons_self _ _)]
    have hhd := TypeConfigs.Merge_eq_Diff (csM.getStateVal t0) st0
      (hwf (t0, st0) (List.mem_cons_self _ _))
    have hihs := ih (Configs.mk (insertKey csD.types t0 (csD.getStateVal t0)))
      (Configs.mk (insertKey csM.types t0 ((csM.getStateVal t0).Merge st0).1))
      hnd.2 (fun kv hkv => hwf kv (List.mem_cons_of_mem _ hkv))
      (by
        intro typ htyp
        have hne : typ ≠ t0 := fun hh => hnd.1 (hh ▸ htyp)
        show lookupKey (insertKey csD.types t0 _) typ = lookupKey (insertKey csM.types t0 _) typ
        rw [lookupKey_insertKey_ne _ _ _ _ hne, lookupKey_insertKey_ne _ _ _ _ hne]
        exact hlk typ (List.mem_cons_of_mem _ htyp))
    have hP1 : ((csD.getStateVal t0).Diff st0).1 = ((csM.getStateVal t0).Merge st0).2.1 := by
      rw [hst, hhd.1]
    have hP2 : ((csD.getStateVal t0).Diff st0).2 = ((csM.getStateVal t0).Merge st0).2.2 := by
      rw [hst, hhd.2]
    constructor
    · show ((csD.getStateVal t0).Diff st0).1 ++
        (diffAux (Configs.mk (insertKey csD.types t0 (csD.getStateVal t0))) rest).2.1 =
        ((csM.getStateVal t0).Merge st0).2.1 ++
        (mergeAux (Configs.mk (insertKey csM.types t0 ((csM.getStateVal t0).Merge st0).1)) rest).2.1
      rw [hP1, hihs.1]
    · show ((csD.getStateVal t0).Diff st0).2 ++
        (diffAux (Configs.mk (insertKey csD.types t0 (csD.getStateVal t0))) rest).2.2 =
        ((csM.getStateVal t0).Merge st0).2.2 ++
        (mergeAux (Configs.mk (insertKey csM.types t0 ((csM.getStateVal t0).Merge st0).1)) rest).2.2
      rw [hP2, hihs.2]

end Configs

/-- C5: against a well-formed incoming store, `Diff` returns exactly the
config and tombstone lists that `Merge` would accept (equal lists, in the
same order), and the receiver's contents are unchanged by `Diff`. -/
theorem c5_diff_previews_merge {α : Type} (A other : Configs α) (h : other.Wf) :
    (A.Diff other).2.1 = (A.Merge other).2.1 ∧
    (A.Diff other).2.2 = (A.Merge other).2.2 ∧
    (∀ typ ID, ((A.Diff other).1).Get typ ID = A.Get typ ID) := by
  have hl := Configs.diffAux_lists other.types A A h.1 h.2.1 (fun _ _ => rfl)
  exact ⟨hl.1, hl.2, fun typ ID => Configs.diffAux_Get other.types A typ ID⟩

/-- Witness for C5 at a concrete pair of stores. -/
theorem c5_diff_previews_merge_witness :
    (⟨[("t", ⟨[("a", ⟨"t", "a", 2, ()⟩)], []⟩)]⟩ : Configs Unit).Wf ∧
    ((⟨[("t", ⟨[("b", ⟨"t", "b", 1, ()⟩)], []⟩)]⟩ : Configs Unit).Diff
      ⟨[("t", ⟨[("a", ⟨"t", "a", 2, ()⟩)], []⟩)]⟩).2.1 =
    ((⟨[("t", ⟨[("b", ⟨"t", "b", 1, ()⟩)], []⟩)]⟩ : Configs Unit).Merge
      ⟨[("t", ⟨[("a", ⟨"t", "a", 2, ()⟩)], []⟩)]⟩).2.1 :=
  ⟨by decide,
    (c5_diff_previews_merge ⟨[("t", ⟨[("b", ⟨"t", "b", 1, ()⟩)], []⟩)]⟩
      ⟨[("t", ⟨[("a", ⟨"t", "a", 2, ()⟩)], []⟩)]⟩ (by decide)).1⟩

theorem lookupKey_map {β γ : Type} (g : β → γ) (l : List (String × β)) (key : String) :
    lookupKey (l.map (fun kv => (kv.1, g kv.2))) key = (lookupKey l key).map g := by
  induction l with
  | nil => rfl
  | cons hd t ih =>
    obtain ⟨k, v⟩ := hd
    by_cases h : k = key <;> simp [h, ih]

theorem lookupKey_insertKey_lookup_self {β : Type} {l : List (String × β)} {key : String}
    {v : β} (h : lookupKey l key = some v) (k' : String) :
    lookupKey (insertKey l key v) k' = lookupKey l k' := by
  by_cases hk : k' = key
  · subst hk
    rw [lookupKey_insertKey_self, h]
  · exact lookupKey_insertKey_ne _ _ _ _ hk

namespace TypeConfigs

theorem isNewConfig_mapData {α β : Type} (f : α → β) (tc : TypeConfigs α)
    (ID : String) (v : Nat) :
    (tc.mapData f).isNewConfig ID v = tc.isNewConfig ID v := by
  unfold isNewConfig mapData
  rw [lookupKey_map]
  cases lookupKey tc.configs ID with
  | some c => rfl
  | none => rfl

theorem isNewTombstone_mapData {α β : Type} (f : α → β) (tc : TypeConfigs α)
    (ID : String) (v : Nat) :
    (tc.mapData f).isNewTombstone ID v = tc.isNewTombstone ID v := by
  unfold isNewTombstone mapData
  rw [lookupKey_map]
  cases lookupKey tc.configs ID with
  | some c => rfl
  | none => rfl

theorem diffConfigsAux_mapData {α β : Type} (f : α → β) (tc : TypeConfigs α)
    (cs : List (String × Config α)) :
    diffConfigsAux (tc.mapData f) (cs.map (fun kv => (kv.1, kv.2.mapData f))) =
      (diffConfigsAux tc cs).map (Config.mapData f) := by
  induction cs with
  | nil => rfl
  | cons hd rest ih =>
    obtain ⟨k, c⟩ := hd
    show diffConfigsAux (tc.mapData f) ((k, c.mapData f) :: _) = _
    unfold diffConfigsAux
    have hid : (c.mapData f).id = c.id := rfl
    have hv : (c.mapData f).version = c.version := rfl
    rw [hid, hv, isNewConfig_mapData]
    by_cases h : tc.isNewConfig c.id c.version
    · rw [if_pos h, if_pos h, ih]
      rfl
    · rw [if_neg h, if_neg h, ih]

theorem diffTombsAux_mapData {α β : Type} (f : α → β) (tc : TypeConfigs α)
    (ts : List (String × Tombstone)) :
    diffTombsAux (tc.mapData f) ts = diffTombsAux tc ts := by
  induction ts with
  | nil => rfl
  | cons hd rest ih =>
    obtain ⟨k, t⟩ := hd
    unfold diffTombsAux
    rw [isNewTombstone_mapData]
    by_cases h : tc.isNewTombstone t.id t.version
    · rw [if_pos h, if_pos h, ih]
    · rw [if_neg h, if_neg h, ih]

end TypeConfigs

namespace Configs

theorem getStateVal_mapData {α β : Type} (f : α → β) (cs : Configs α) (typ : String) :
    (cs.mapData f).getStateVal typ = (cs.getStateVal typ).mapData f := by
  unfold getStateVal mapData
  rw [show (Configs.mk (cs.types.map
      (fun kv => (kv.1, kv.2.mapData f)))).types =
      cs.types.map (fun kv => (kv.1, kv.2.mapData f)) from rfl,
    lookupKey_map]
  cases lookupKey cs.types typ with
  | some st => rfl
  | none => rfl

theorem insertKey_map {β γ : Type} (g : β → γ) (l : List (String × β)) (key : String) (v : β) :
    (insertKey l key v).map (fun kv => (kv.1, g kv.2)) =
      insertKey (l.map (fun kv => (kv.1, g kv.2))) key (g v) := by
  induction l with
  | nil => rfl
  | cons hd t ih =>
    obtain ⟨k, w⟩ := hd
    by_cases h : k = key <;> simp [insertKey, h, ih]

/-- The type-map frame of `Diff`: each type either keeps its lookup or, if it
was absent, gains the empty typed store. -/
theorem diffAux_types {α : Type} (l : List (String × TypeConfigs α)) :
    ∀ (cs : Configs α) (typ : String),
    lookupKey ((diffAux cs l).1).types typ = lookupKey cs.types typ ∨
    (lookupKey cs.types typ = none ∧
      lookupKey ((diffAux cs l).1).types typ = some TypeConfigs.empty) := by
  induction l with
  | nil => exact fun _ _ => Or.inl rfl
  | cons hd rest ih =>
    intro cs typ
    obtain ⟨t0, st0⟩ := hd
    have hstep : lookupKey (insertKey cs.types t0 (cs.getStateVal t0)) typ =
        lookupKey cs.types typ ∨
        (lookupKey cs.types typ = none ∧
          lookupKey (insertKey cs.types t0 (cs.getStateVal t0)) typ =
            some TypeConfigs.empty) := by
      by_cases ht : typ = t0
      · subst ht
        cases hl : lookupKey cs.types typ with
        | some st =>
          left
          rw [show cs.getStateVal typ = st by unfold getStateVal; rw [hl]; rfl]
          rw [lookupKey_insertKey_lookup_self hl, hl]
        | none =>
          right
          refine ⟨rfl, ?_⟩
          rw [show cs.getStateVal typ = TypeConfigs.empty by
            unfold getStateVal; rw [hl]; rfl]
          exact lookupKey_insertKey_self _ _ _
      · left
        exact lookupKey_insertKey_ne _ _ _ _ ht
    have hrest := ih (Configs.mk (insertKey cs.types t0 (cs.getStateVal t0))) typ
    show lookupKey ((diffAux (Configs.mk (insertKey cs.types t0 (cs.getStateVal t0)))
      rest).1).types typ = _ ∨ _
    rcases hrest with h1 | h1
    · rcases hstep with h2 | h2
      · exact Or.inl (h1.trans h2)
      · exact Or.inr ⟨h2.1, h1.trans h2.2⟩
    · rcases hstep with h2 | h2
      · exact Or.inr ⟨h2 ▸ h1.1, h1.2⟩
      · rw [h2.2] at h1
        exact Option.noConfusion h1.1

/-- `Diff` commutes with mapping the opaque payloads: payloads are never
inspected and never altered. -/
theorem diffAux_mapData {α β : Type} (f : α → β) (l : List (String × TypeConfigs α)) :
    ∀ cs : Configs α,
    (diffAux (cs.mapData f) (l.map (fun kv => (kv.1, kv.2.mapData f)))).1 =
      ((diffAux cs l).1).mapData f ∧
    (diffAux (cs.mapData f) (l.map (fun kv => (kv.1, kv.2.mapData f)))).2.1 =
      ((diffAux cs l).2.1).map (Config.mapData f) ∧
    (diffAux (cs.mapData f) (l.map (fun kv => (kv.1, kv.2.mapData f)))).2.2 =
      (diffAux cs l).2.2 := by
  induction l with
  | nil => exact fun _ => ⟨rfl, rfl, rfl⟩
  | cons hd rest ih =>
    intro cs
    obtain ⟨t0, st0⟩ := hd
    have hstore : (Configs.mk (insertKey (cs.mapData f).types t0
        ((cs.mapData f).getStateVal t0)) : Configs β) =
        (Configs.mk (insertKey cs.types t0 (cs.getStateVal t0))).mapData f := by
      show Configs.mk (insertKey (cs.mapData f).types t0 ((cs.mapData f).getStateVal t0)) =
        Configs.mk ((insertKey cs.types t0 (cs.getStateVal t0)).map
          (fun kv => (kv.1, kv.2.mapData f)))
      rw [insertKey_map, getStateVal_mapData]
      rfl
    have hdiffC : ((cs.mapData f).getStateVal t0).Diff (st0.mapData f) =
        (((cs.getStateVal t0).Diff st0).1.map (Config.mapData f),
          ((cs.getStateVal t0).Diff st0).2) := by
      rw [getStateVal_mapData]
      unfold TypeConfigs.Diff
      rw [show (st0.mapData f).configs = st0.configs.map
          (fun kv => (kv.1, kv.2.mapData f)) from rfl,
        show (st0.mapData f).tombstones = st0.tombstones from rfl,
        TypeConfigs.diffConfigsAux_mapData, TypeConfigs.diffTombsAux_mapData]
    have hih := ih (Configs.mk (insertKey cs.types t0 (cs.getStateVal t0)))
    refine ⟨?_, ?_, ?_⟩
    · show (diffAux (Configs.mk (insertKey (cs.mapData f).types t0
        ((cs.mapData f).getStateVal t0))) (rest.map (fun kv => (kv.1, kv.2.mapData f)))).1 =
        Configs.mapData f
          (diffAux (Configs.mk (insertKey cs.types t0 (cs.getStateVal t0))) rest).1
      rw [hstore, hih.1]
    · show (((cs.mapData f).getStateVal t0).Diff (st0.mapData f)).1 ++
        (diffAux (Configs.mk (insertKey (cs.mapData f).types t0
          ((cs.mapData f).getStateVal t0)))
          (rest.map (fun kv => (kv.1, kv.2.mapData f)))).2.1 =
        List.map (Config.mapData f) (((cs.getStateVal t0).Diff st0).1 ++
          (diffAux (Configs.mk (insertKey cs.types t0 (cs.getStateVal t0))) rest).2.1)
      rw [hstore, hih.2.1, hdiffC]
      simp
    · show (((cs.mapData f).getStateVal t0).Diff (st0.mapData f)).2 ++
        (diffAux (Configs.mk (insertKey (cs.mapData f).types t0
          ((cs.mapData f).getStateVal t0)))
          (rest.map (fun kv => (kv.1, kv.2.mapData f)))).2.2 =
        ((cs.getStateVal t0).Diff st0).2 ++
          (diffAux (Configs.mk (insertKey cs.types t0 (cs.getStateVal t0))) rest).2.2
      rw [hstore, hih.2.2, hdiffC]

end Configs

/-- C10: `Configs.Diff` never changes the result of `Get` at any identity
and never adds or removes a config or tombstone — each type key either keeps
its state or, when it was never seen, gains the empty state — and it never
inspects (nor alters) the `Data` field of any config: it commutes with an
arbitrary map over the payloads of both stores. -/
theorem c10_diff_frame {α β : Type} (A other : Configs α) (f : α → β) :
    (∀ typ ID, ((A.Diff other).1).Get typ ID = A.Get typ ID) ∧
    (∀ typ, lookupKey ((A.Diff other).1).types typ = lookupKey A.types typ ∨
      (lookupKey A.types typ = none ∧
        lookupKey ((A.Diff other).1).types typ = some TypeConfigs.empty)) ∧
    ((A.mapData f).Diff (other.mapData f)).1 = ((A.Diff other).1).mapData f ∧
    ((A.mapData f).Diff (other.mapData f)).2.1 =
      ((A.Diff other).2.1).map (Config.mapData f) ∧
    ((A.mapData f).Diff (other.mapData f)).2.2 = (A.Diff other).2.2 := by
  have hm := Configs.diffAux_mapData f other.types A
  exact ⟨fun typ ID => Configs.diffAux_Get other.types A typ ID,
    fun typ => Configs.diffAux_types other.types A typ, hm.1, hm.2.1, hm.2.2⟩

/-- C9 counterexample: a Config wire form carrying no `data` field
deserializes successfully even though its type name is not in the registry —
`UnmarshalJSON` returns before consulting the registry when `data` is
absent. -/
theorem c9_unknown_type_counterexample :
    Config.unmarshalJSON ([] : List (String × (String → Except String Unit)))
      ⟨"unknown", "a", 1, none⟩ = .ok ⟨"unknown", "a", 1, none⟩ ∧
    lookupKey ([] : List (String × (String → Except String Unit))) "unknown" = none :=
  ⟨rfl, rfl⟩

/-- C9 (amended): when the wire form carries a `data` field, deserialization
fails whenever the type name is not registered; on success the payload is
the object produced by the registered factory for that type; when `data` is
absent the config deserializes with no payload regardless of the
registry. -/
theorem c9_unmarshal_registry {α : Type}
    (registry : List (String × (String → Except String α))) (j : ConfigJSON) :
    (∀ raw, j.data = some raw → lookupKey registry j.typ = none →
      ∃ e, Config.unmarshalJSON registry j = .error e) ∧
    (∀ raw dec payload, j.data = some raw → lookupKey registry j.typ = some dec →
      dec raw = .ok payload →
      Config.unmarshalJSON registry j = .ok ⟨j.typ, j.id, j.ver, some payload⟩) ∧
    (∀ raw dec e, j.data = some raw → lookupKey registry j.typ = some dec →
      dec raw = .error e → Config.unmarshalJSON registry j = .error e) ∧
    (j.data = none → Config.unmarshalJSON registry j = .ok ⟨j.typ, j.id, j.ver, none⟩) := by
  refine ⟨?_, ?_, ?_, ?_⟩
  · intro raw hdata hreg
    refine ⟨"unknown config type " ++ j.typ, ?_⟩
    unfold Config.unmarshalJSON
    rw [hdata, hreg]
  · intro raw dec payload hdata hreg hdec
    unfold Config.unmarshalJSON
    simp [hdata, hreg, hdec]
  · intro raw dec e hdata hreg hdec
    unfold Config.unmarshalJSON
    simp [hdata, hreg, hdec]
  · intro hdata
    unfold Config.unmarshalJSON
    rw [hdata]

/-- Witness for C9: a registered type decodes to the factory's payload. -/
theorem c9_unmarshal_registry_witness :
    Config.unmarshalJSON [("test", fun _ => (.ok () : Except String Unit))]
      ⟨"test", "a", 1, some "raw"⟩ = .ok ⟨"test", "a", 1, some ()⟩ :=
  (c9_unmarshal_registry [("test", fun _ => (.ok () : Except String Unit))]
    ⟨"test", "a", 1, some "raw"⟩).2.1 "raw" _ () rfl rfl rfl

/-- C8 (code bug): `loadLine` slices `line[0:8]`, `line[8:16]`, `line[16]`
and `line[17:len-1]` without any length check, so a line shorter than 18
bytes (here the 3-byte line `xx` plus newline) raises a slice-out-of-range
runtime panic that aborts the whole load, contrary to the claim (and to the
struct's own documentation) that corrupted lines are skipped and loading
continues.  Lines long enough to slice are indeed skipped: a bad-magic line
merely sets the corruption flag and the following valid line still loads. -/
theorem c8_aof_load_panics_on_short_line :
    (aofLoad (fun _ => 0) (fun _ => some (⟨"t", "a", 1, ()⟩ : Config Unit))
      (fun _ => none) [[120, 120, 10]] = .oob) ∧
    (aofLoad (fun _ => 0) (fun _ => some (⟨"t", "a", 1, ()⟩ : Config Unit)) (fun _ => none)
      [[48, 48, 48, 48, 48, 48, 48, 48, 48, 48, 48, 48, 48, 48, 48, 48, 110, 10],
       [101, 55, 52, 101, 49, 57, 48, 50, 48, 48, 48, 48, 48, 48, 48, 48, 110, 10]] =
      .done ⟨[("t", ⟨[("a", ⟨"t", "a", 1, ()⟩)], []⟩)]⟩ true) := by
  constructor
  · rfl
  · rfl

@[simp]
theorem keysOf_append {β : Type} (l1 l2 : List (String × β)) :
    keysOf (l1 ++ l2) = keysOf l1 ++ keysOf l2 := by
  unfold keysOf
  exact List.map_append _ _ _

theorem insertKey_not_mem_append {β : Type} (l : List (String × β)) (key : String) (v : β)
    (h : key ∉ keysOf l) : insertKey l key v = l ++ [(key, v)] := by
  induction l with
  | nil => rfl
  | cons hd t ih =>
    obtain ⟨k, w⟩ := hd
    simp only [keysOf_cons, List.mem_cons, not_or] at h
    rw [show insertKey ((k, w) :: t) key v =
      if k = key then (key, v) :: t else (k, w) :: insertKey t key v from rfl,
      if_neg (fun hh => h.1 hh.symm), ih h.2]
    rfl

theorem foldl_insert_self {β : Type} (l : List (String × β)) :
    ∀ acc, NodupKeys l → (∀ k ∈ keysOf l, k ∉ keysOf acc) →
    l.foldl (fun a kv => insertKey a kv.1 kv.2) acc = acc ++ l := by
  induction l with
  | nil => intro acc _ _; simp
  | cons hd rest ih =>
    intro acc hnd hdisj
    obtain ⟨k, v⟩ := hd
    unfold NodupKeys at hnd
    simp only [keysOf_cons, List.nodup_cons] at hnd
    rw [List.foldl_cons]
    rw [show insertKey acc (k, v).1 (k, v).2 = acc ++ [(k, v)] from
      insertKey_not_mem_append acc k v (hdisj k (List.mem_cons_self _ _))]
    rw [ih (acc ++ [(k, v)]) hnd.2 ?_]
    · rw [List.append_assoc]
      rfl
    · intro k' hk'
      simp only [keysOf_append, List.mem_append, not_or, keysOf_cons, keysOf_nil]
      refine ⟨hdisj k' (List.mem_cons_of_mem _ hk'), ?_⟩
      simp only [List.mem_cons, List.not_mem_nil, or_false]
      exact fun hh => hnd.1 (hh ▸ hk')

theorem foldl_insert_id_key (l : List (String × Tombstone))
    (hco : ∀ kv ∈ l, kv.2.id = kv.1) :
    ∀ acc, l.foldl (fun a kv => insertKey a kv.2.id kv.2) acc =
      l.foldl (fun a kv => insertKey a kv.1 kv.2) acc := by
  induction l with
  | nil => intro acc; rfl
  | cons hd rest ih =>
    intro acc
    obtain ⟨k, t⟩ := hd
    rw [List.foldl_cons, List.foldl_cons,
      show t.id = k from hco (k, t) (List.mem_cons_self _ _),
      ih (fun kv hkv => hco kv (List.mem_cons_of_mem _ hkv))]

/-- On a well-formed typed store, `Copy` rebuilds the very same maps. -/
theorem TypeConfigs.Copy_eq_self {α : Type} {tc : TypeConfigs α} (h : tc.Wf) :
    tc.Copy = tc := by
  obtain ⟨hndC, hndT, hcoC, hcoT, _⟩ := h
  unfold TypeConfigs.Copy
  obtain ⟨cfg, tmb⟩ := tc
  simp only at hndC hndT hcoC hcoT ⊢
  rw [foldl_insert_self cfg [] hndC (by simp [NodupKeys]),
    foldl_insert_id_key tmb hcoT [],
    foldl_insert_self tmb [] hndT (by simp [NodupKeys])]
  simp

/-- On a well-formed store, `Copy` is the identity (records are shared, maps
are rebuilt equal). -/
theorem Configs.store_Copy_eq_self {α : Type} {cs : Configs α} (h : cs.Wf) :
    cs.Copy = cs := by
  obtain ⟨hnd, hwf, _, _⟩ := h
  have hcongr : ∀ acc, cs.types.foldl (fun a kv => insertKey a kv.1 kv.2.Copy) acc =
      cs.types.foldl (fun a kv => insertKey a kv.1 kv.2) acc := by
    have : ∀ (l : List (String × TypeConfigs α)), (∀ kv ∈ l, kv.2.Wf) →
        ∀ acc, l.foldl (fun a kv => insertKey a kv.1 kv.2.Copy) acc =
          l.foldl (fun a kv => insertKey a kv.1 kv.2) acc := by
      intro l
      induction l with
      | nil => intro _ acc; rfl
      | cons hd rest ih =>
        intro hw acc
        rw [List.foldl_cons, List.foldl_cons,
          TypeConfigs.Copy_eq_self (hw hd (List.mem_cons_self _ _)),
          ih (fun kv hkv => hw kv (List.mem_cons_of_mem _ hkv))]
    exact this cs.types hwf
  unfold Configs.Copy
  rw [hcongr, foldl_insert_self cs.types [] hnd (by simp [NodupKeys])]
  rfl

namespace RouterState

theorem registerStateCore_configs {α σ : Type} (ops : StateOps α σ) (rs : RouterState α σ)
    (key : String) (obj : σ) (notify : Bool) :
    (registerStateCore ops rs key obj notify).configs = rs.configs := by
  unfold registerStateCore
  by_cases h : (ops.allowed obj).isEmpty <;> simp [h]

theorem Copy_configs {α σ : Type} (ops : StateOps α σ) (rs : RouterState α σ) :
    (Copy ops rs).configs = rs.configs.Copy := by
  unfold Copy
  have : ∀ (l : List (String × σ)) (acc : RouterState α σ),
      (l.foldl (fun a kv => registerStateCore ops a kv.1 (ops.copy kv.2) false) acc).configs =
        acc.configs := by
    intro l
    induction l with
    | nil => intro acc; rfl
    | cons hd rest ih =>
      intro acc
      rw [List.foldl_cons, ih, registerStateCore_configs]
  rw [this]

theorem NewConfig_configs {α σ : Type} (ops : StateOps α σ) (rs : RouterState α σ)
    (c : Config α) :
    ((NewConfig ops rs c).1).configs = (rs.configs.NewConfig c).1 := by
  unfold NewConfig
  by_cases h : (rs.configs.NewConfig c).2.2 <;> simp [h]

theorem DeadConfig_configs {α σ : Type} (ops : StateOps α σ) (rs : RouterState α σ)
    (t : Tombstone) :
    ((DeadConfig ops rs t).1).configs = (rs.configs.DeadConfig t).1 := by
  unfold DeadConfig
  by_cases h : (rs.configs.DeadConfig t).2.2
  · cases hold : (rs.configs.DeadConfig t).2.1 <;> simp [h, hold]
  · simp [h]

theorem pushNew_fold_configs {α σ : Type} (ops : StateOps α σ)
    (l : List (String × Config α)) :
    ∀ acc : RouterState α σ × List (Event α) × List String,
    ((l.foldl (fun a ckv =>
      let r := NewConfig ops a.1 ckv.2
      (r.1, a.2.1 ++ r.2.1, a.2.2 ++ r.2.2)) acc).1).configs =
      l.foldl (fun cs ckv => (cs.NewConfig ckv.2).1) acc.1.configs := by
  induction l with
  | nil => intro acc; rfl
  | cons hd rest ih =>
    intro acc
    rw [List.foldl_cons, List.foldl_cons, ih]
    rw [show ((NewConfig ops acc.1 hd.2).1, acc.2.1 ++ (NewConfig ops acc.1 hd.2).2.1,
      acc.2.2 ++ (NewConfig ops acc.1 hd.2).2.2).1.configs =
      (acc.1.configs.NewConfig hd.2).1 from NewConfig_configs ops acc.1 hd.2]

theorem pushDead_fold_configs {α σ : Type} (ops : StateOps α σ)
    (l : List (String × Tombstone)) :
    ∀ acc : RouterState α σ × List (Event α) × List String,
    ((l.foldl (fun a tkv =>
      let r := DeadConfig ops a.1 tkv.2
      (r.1, a.2.1 ++ r.2.1, a.2.2 ++ r.2.2)) acc).1).configs =
      l.foldl (fun cs tkv => (cs.DeadConfig tkv.2).1) acc.1.configs := by
  induction l with
  | nil => intro acc; rfl
  | cons hd rest ih =>
    intro acc
    rw [List.foldl_cons, List.foldl_cons, ih]
    rw [show ((DeadConfig ops acc.1 hd.2).1, acc.2.1 ++ (DeadConfig ops acc.1 hd.2).2.1,
      acc.2.2 ++ (DeadConfig ops acc.1 hd.2).2.2).1.configs =
      (acc.1.configs.DeadConfig hd.2).1 from DeadConfig_configs ops acc.1 hd.2]

theorem PushConfigs_configs {α σ : Type} (ops : StateOps α σ) (rs : RouterState α σ)
    (other : Configs α) :
    ((PushConfigs ops rs other).1).configs = rs.configs.pushStore other := by
  unfold PushConfigs Configs.pushStore
  have : ∀ (l : List (String × TypeConfigs α))
      (acc : RouterState α σ × List (Event α) × List String),
      ((l.foldl (fun a kv =>
        let acc1 := kv.2.configs.foldl (fun a2 ckv =>
          let r := NewConfig ops a2.1 ckv.2
          (r.1, a2.2.1 ++ r.2.1, a2.2.2 ++ r.2.2)) a
        kv.2.tombstones.foldl (fun a2 tkv =>
          let r := DeadConfig ops a2.1 tkv.2
          (r.1, a2.2.1 ++ r.2.1, a2.2.2 ++ r.2.2)) acc1) acc).1).configs =
      l.foldl (fun cs kv =>
        let cs1 := kv.2.configs.foldl (fun a2 ckv => (a2.NewConfig ckv.2).1) cs
        kv.2.tombstones.foldl (fun a2 tkv => (a2.DeadConfig tkv.2).1) cs1) acc.1.configs := by
    intro l
    induction l with
    | nil => intro acc; rfl
    | cons hd rest ih =>
      intro acc
      rw [List.foldl_cons, List.foldl_cons, ih, pushDead_fold_configs,
        pushNew_fold_configs]
  exact this other.types (rs, [], [])

theorem applyMutation_configs {α σ : Type} (ops : StateOps α σ) (rs : RouterState α σ)
    (m : Mutation α) :
    ((applyMutation ops rs m).1).configs = rs.configs.applyMutation m := by
  cases m with
  | newConfig c => exact NewConfig_configs ops rs c
  | deadConfig t => exact DeadConfig_configs ops rs t
  | pushConfigs cs => exact PushConfigs_configs ops rs cs

end RouterState

namespace Configs

theorem Wf_foldl_new {α : Type} (l : List (String × Config α)) :
    ∀ cs : Configs α, cs.Wf →
    (l.foldl (fun a ckv => (a.NewConfig ckv.2).1) cs).Wf := by
  induction l with
  | nil => exact fun _ h => h
  | cons hd rest ih =>
    intro cs h
    rw [List.foldl_cons]
    exact ih _ (store_Wf_NewConfig h hd.2)

theorem Wf_foldl_dead {α : Type} (l : List (String × Tombstone)) :
    ∀ cs : Configs α, cs.Wf →
    (l.foldl (fun a tkv => (a.DeadConfig tkv.2).1) cs).Wf := by
  induction l with
  | nil => exact fun _ h => h
  | cons hd rest ih =>
    intro cs h
    rw [List.foldl_cons]
    exact ih _ (store_Wf_DeadConfig h hd.2)

theorem Wf_pushStore {α : Type} (other : Configs α) :
    ∀ cs : Configs α, cs.Wf → (cs.pushStore other).Wf := by
  unfold pushStore
  generalize other.types = l
  induction l with
  | nil => exact fun _ h => h
  | cons hd rest ih =>
    intro cs h
    rw [List.foldl_cons]
    exact ih _ (Wf_foldl_dead _ _ (Wf_foldl_new _ _ h))

theorem Wf_applyMutation {α : Type} {cs : Configs α} (h : cs.Wf) (m : Mutation α) :
    (cs.applyMutation m).Wf := by
  cases m with
  | newConfig c => exact store_Wf_NewConfig h c
  | deadConfig t => exact store_Wf_DeadConfig h t
  | pushConfigs other => exact Wf_pushStore other cs h

end Configs

namespace RouterModel

theorem step_configs {α σ : Type} (ops : StateOps α σ) (r : RouterModel α σ)
    (m : Mutation α) (hw : r.current.configs.Wf) :
    (step ops r m).current.configs = r.current.configs.applyMutation m := by
  unfold step
  rw [RouterState.applyMutation_configs, RouterState.Copy_configs,
    Configs.store_Copy_eq_self hw]

theorem run_configs {α σ : Type} (ops : StateOps α σ) (ms : List (Mutation α)) :
    ∀ r : RouterModel α σ, r.current.configs.Wf →
    (run ops r ms).current.configs =
      ms.foldl Configs.applyMutation r.current.configs := by
  induction ms with
  | nil => exact fun _ _ => rfl
  | cons m rest ih =>
    intro r hw
    have hw2 : (step ops r m).current.configs.Wf := by
      rw [step_configs ops r m hw]
      exact Configs.Wf_applyMutation hw m
    show (run ops (step ops r m) rest).current.configs = _
    rw [ih (step ops r m) hw2, step_configs ops r m hw, List.foldl_cons]

theorem run_snaps {α σ : Type} (ops : StateOps α σ) (ms : List (Mutation α)) :
    ∀ r : RouterModel α σ, ∃ l, (run ops r ms).snaps = r.snaps ++ l := by
  induction ms with
  | nil => exact fun r => ⟨[], by simp [run]⟩
  | cons m rest ih =>
    intro r
    obtain ⟨l, hl⟩ := ih (step ops r m)
    refine ⟨[(step ops r m).current] ++ l, ?_⟩
    show (run ops (step ops r m) rest).snaps = _
    rw [hl]
    show (r.snaps ++ [(step ops r m).current]) ++ l = _
    rw [List.append_assoc]

end RouterModel

/-- C6: snapshot isolation of the copy-on-write pipeline.  Copying a
snapshot whose store is well-formed yields the very same store; every
snapshot published before a burst of mutations is still present, untouched,
in the snapshot log afterwards (a reader holding it reads identical data);
and only the newly published snapshot reflects the mutations: its store is
exactly the mutations folded over the prior snapshot's store. -/
theorem c6_snapshot_isolation {α σ : Type} (ops : StateOps α σ) (r : RouterModel α σ)
    (ms : List (Mutation α)) (hw : r.current.configs.Wf) :
    ((RouterState.Copy ops r.current).configs = r.current.configs) ∧
    ((RouterModel.run ops r ms).snaps.take r.snaps.length = r.snaps) ∧
    ((RouterModel.run ops r ms).current.configs =
      ms.foldl Configs.applyMutation r.current.configs) := by
  refine ⟨?_, ?_, ?_⟩
  · rw [RouterState.Copy_configs, Configs.store_Copy_eq_self hw]
  · obtain ⟨l, hl⟩ := RouterModel.run_snaps ops ms r
    rw [hl]
    exact List.take_left r.snaps l
  · exact RouterModel.run_configs ops ms r hw

/-- Witness for C6: a router with one untyped recorder state, one mutation. -/
theorem c6_snapshot_isolation_witness :
    ((⟨[]⟩ : Configs Unit)).Wf ∧
    ((RouterModel.run (recorderOps Unit)
        ⟨⟨⟨[]⟩, [("d", [])], [], ["d"], [], []⟩,
          [⟨⟨[]⟩, [("d", [])], [], ["d"], [], []⟩]⟩
        [Mutation.newConfig ⟨"t", "a", 1, ()⟩]).current.configs =
      [Mutation.newConfig ⟨"t", "a", 1, ()⟩].foldl Configs.applyMutation ⟨[]⟩) :=
  ⟨by decide,
    (c6_snapshot_isolation (recorderOps Unit)
      ⟨⟨⟨[]⟩, [("d", [])], [], ["d"], [], []⟩,
        [⟨⟨[]⟩, [("d", [])], [], ["d"], [], []⟩]⟩
      [Mutation.newConfig ⟨"t", "a", 1, ()⟩] (by decide)).2.2⟩

theorem lookupKey_insertKey_isSome {β : Type} (l : List (String × β)) (key k' : String)
    (v : β) (h : (lookupKey l k').isSome) : (lookupKey (insertKey l key v) k').isSome := by
  by_cases hk : k' = key
  · subst hk
    rw [lookupKey_insertKey_self]
    rfl
  · rw [lookupKey_insertKey_ne _ _ _ _ hk]
    exact h

theorem notifyDeadNew_events {α σ : Type} (ops : StateOps α σ) (keys : List String) :
    ∀ keyed : List (String × σ),
    (∀ k ∈ keys, (lookupKey keyed k).isSome) →
    ∀ o c : Config α,
    (RouterState.notifyDeadNew ops keyed keys (some o) c).2.1 =
      keys.flatMap (fun k => [Event.stateDead k o, Event.stateNew k c]) := by
  induction keys with
  | nil => intros; rfl
  | cons k rest ih =>
    intro keyed hsome o c
    cases hl : lookupKey keyed k with
    | none =>
      have := hsome k (List.mem_cons_self _ _)
      rw [hl] at this
      simp at this
    | some obj =>
      show (RouterState.notifyDeadNew ops keyed (k :: rest) (some o) c).2.1 = _
      unfold RouterState.notifyDeadNew
      rw [hl]
      show [Event.stateDead k o, Event.stateNew k c] ++
        (RouterState.notifyDeadNew ops
          (insertKey keyed k (ops.newConfig (ops.deadConfig obj o).1 c).1)
          rest (some o) c).2.1 = _
      rw [ih _ (fun k' hk' => lookupKey_insertKey_isSome _ _ _ _
        (hsome k' (List.mem_cons_of_mem _ hk'))) o c]
      rw [List.flatMap_cons]

theorem notifyDeadNew_keyed_isSome {α σ : Type} (ops : StateOps α σ) (keys : List String) :
    ∀ (keyed : List (String × σ)) (old : Option (Config α)) (c : Config α) (k' : String),
    (lookupKey keyed k').isSome →
    (lookupKey (RouterState.notifyDeadNew ops keyed keys old c).1 k').isSome := by
  induction keys with
  | nil => exact fun _ _ _ _ h => h
  | cons k rest ih =>
    intro keyed old c k' h
    cases hl : lookupKey keyed k with
    | none =>
      show (lookupKey (RouterState.notifyDeadNew ops keyed (k :: rest) old c).1 k').isSome
      unfold RouterState.notifyDeadNew
      rw [hl]
      exact ih keyed old c k' h
    | some obj =>
      show (lookupKey (RouterState.notifyDeadNew ops keyed (k :: rest) old c).1 k').isSome
      unfold RouterState.notifyDeadNew
      rw [hl]
      cases old with
      | none => exact ih _ _ _ _ (lookupKey_insertKey_isSome _ _ _ _ h)
      | some o => exact ih _ _ _ _ (lookupKey_insertKey_isSome _ _ _ _ h)

/-- C7: when an accepted config replaces an existing one, the router state
notifies — after the handler notifications — every routed derived state,
untyped ones first and then those typed for the config's type, each with
`DeadConfig(replaced)` immediately followed by `NewConfig(config)`; in the
recorder scenario, applying `newConfig(a,1)` then `newConfig(a,2)` leaves an
untyped derived state with the exact trace
`applyNew(a,1); applyDead(a,1); applyNew(a,2)`. -/
theorem c7_replace_dead_then_new {α σ : Type} (ops : StateOps α σ) (rs : RouterState α σ)
    (c o : Config α)
    (hnew : (rs.configs.NewConfig c).2.2 = true)
    (hold : (rs.configs.NewConfig c).2.1 = some o)
    (hkeys : ∀ k, k ∈ rs.untypedStates ∨ k ∈ (lookupKey rs.typedStates c.typ).getD [] →
      (lookupKey rs.keyedStates k).isSome) :
    ((RouterState.NewConfig ops rs c).2.1 =
      (rs.untypedHandlers.map (fun h => Event.handlerNew h c)
        ++ ((lookupKey rs.typedHandlers c.typ).getD []).map (fun h => Event.handlerNew h c))
      ++ rs.untypedStates.flatMap (fun k => [Event.stateDead k o, Event.stateNew k c])
      ++ ((lookupKey rs.typedStates c.typ).getD []).flatMap
          (fun k => [Event.stateDead k o, Event.stateNew k c])) ∧
    (lookupKey (RouterModel.run (recorderOps Unit)
        ⟨⟨⟨[]⟩, [("d", [])], [], ["d"], [], []⟩,
          [⟨⟨[]⟩, [("d", [])], [], ["d"], [], []⟩]⟩
        [Mutation.newConfig ⟨"t", "a", 1, ()⟩,
         Mutation.newConfig ⟨"t", "a", 2, ()⟩]).current.keyedStates "d" =
      some [REv.recNew ⟨"t", "a", 1, ()⟩, REv.recDead ⟨"t", "a", 1, ()⟩,
        REv.recNew ⟨"t", "a", 2, ()⟩]) := by
  constructor
  · simp only [RouterState.NewConfig, hnew, hold, if_true]
    rw [notifyDeadNew_events ops rs.untypedStates rs.keyedStates
      (fun k hk => hkeys k (Or.inl hk)) o c]
    rw [notifyDeadNew_events ops ((lookupKey rs.typedStates c.typ).getD [])
      (RouterState.notifyDeadNew ops rs.keyedStates rs.untypedStates (some o) c).1
      (fun k hk => notifyDeadNew_keyed_isSome ops rs.untypedStates rs.keyedStates
        (some o) c k (hkeys k (Or.inr hk))) o c]
  · rfl

/-- Witness for C7: a store already holding `(t, a, 1)`, an incoming
`(t, a, 2)`, one untyped derived state under key `d`. -/
theorem c7_replace_dead_then_new_witness :
    (RouterState.NewConfig (recorderOps Unit)
      ⟨⟨[("t", ⟨[("a", ⟨"t", "a", 1, ()⟩)], []⟩)]⟩,
        [("d", [REv.recNew ⟨"t", "a", 1, ()⟩])], [], ["d"], [], []⟩
      ⟨"t", "a", 2, ()⟩).2.1 =
      [Event.stateDead "d" ⟨"t", "a", 1, ()⟩, Event.stateNew "d" ⟨"t", "a", 2, ()⟩] :=
  (c7_replace_dead_then_new (recorderOps Unit)
    ⟨⟨[("t", ⟨[("a", ⟨"t", "a", 1, ()⟩)], []⟩)]⟩,
      [("d", [REv.recNew ⟨"t", "a", 1, ()⟩])], [], ["d"], [], []⟩
    ⟨"t", "a", 2, ()⟩ ⟨"t", "a", 1, ()⟩ (by decide) (by decide)
    (by
      intro k hk
      rcases hk with h | h
      · rcases List.mem_singleton.mp h with rfl
        rfl
      · simp at h)).1

/-- C1: for a typed store in which the ID does not sit in both maps,
`NewConfig` accepts exactly when the ID is absent, the resident config is
strictly older, or the resident tombstone is strictly older; `DeadConfig`
accepts exactly when the ID is absent, the resident config is no newer, or
the resident tombstone is strictly older.  In particular a tombstone of the
resident config's version replaces it, and a config of the resident
tombstone's version is rejected and leaves the store unchanged. -/
theorem c1_insert_acceptance {α : Type} (tc : TypeConfigs α) (ID : String) (v : Nat)
    (hdisj : lookupKey tc.configs ID = none ∨ lookupKey tc.tombstones ID = none) :
    (tc.isNewConfig ID v = true ↔
      ((lookupKey tc.configs ID = none ∧ lookupKey tc.tombstones ID = none) ∨
       (∃ c, lookupKey tc.configs ID = some c ∧ c.version < v) ∨
       (∃ t, lookupKey tc.tombstones ID = some t ∧ t.version < v))) ∧
    (tc.isNewTombstone ID v = true ↔
      ((lookupKey tc.configs ID = none ∧ lookupKey tc.tombstones ID = none) ∨
       (∃ c, lookupKey tc.configs ID = some c ∧ c.version ≤ v) ∨
       (∃ t, lookupKey tc.tombstones ID = some t ∧ t.version < v))) ∧
    (∀ c : Config α, lookupKey tc.configs ID = some c →
      (tc.DeadConfig ⟨c.typ, ID, c.version⟩).2.2 = true ∧
      ((tc.DeadConfig ⟨c.typ, ID, c.version⟩).1).Get ID =
        some (.dead ⟨c.typ, ID, c.version⟩)) ∧
    (∀ t, lookupKey tc.tombstones ID = some t → ∀ c : Config α,
      c.id = ID → c.version = t.version →
      (tc.NewConfig c).2.2 = false ∧ (tc.NewConfig c).1 = tc) := by
  refine ⟨?_, ?_, ?_, ?_⟩
  · unfold TypeConfigs.isNewConfig
    cases hc : lookupKey tc.configs ID with
    | some c =>
      have htn : lookupKey tc.tombstones ID = none := by
        rcases hdisj with h | h
        · rw [hc] at h; exact Option.noConfusion h
        · exact h
      simp [htn]
    | none =>
      cases ht : lookupKey tc.tombstones ID with
      | some t => simp [ht]
      | none => simp [ht]
  · unfold TypeConfigs.isNewTombstone
    cases hc : lookupKey tc.configs ID with
    | some c =>
      have htn : lookupKey tc.tombstones ID = none := by
        rcases hdisj with h | h
        · rw [hc] at h; exact Option.noConfusion h
        · exact h
      simp [htn]
    | none =>
      cases ht : lookupKey tc.tombstones ID with
      | some t => simp [ht]
      | none => simp [ht]
  · intro c hc
    have hget : tc.Get ID = some (.live c) := by
      unfold TypeConfigs.Get; rw [hc]
    constructor
    · rw [TypeConfigs.isNew_DeadConfig]
      unfold TypeConfigs.isNewTombstone
      simp [hc]
    · rw [TypeConfigs.Get_DeadConfig, if_pos rfl, hget]
      unfold stepTomb
      simp
  · intro t ht c hcid hcv
    have hcn : lookupKey tc.configs ID = none := by
      rcases hdisj with h | h
      · exact h
      · rw [ht] at h; exact Option.noConfusion h
    have hnew : tc.isNewConfig c.id c.version = false := by
      unfold TypeConfigs.isNewConfig
      rw [hcid, hcn, ht, hcv]
      simp
    constructor
    · rw [TypeConfigs.isNew_NewConfig, hnew]
    · unfold TypeConfigs.NewConfig
      rw [hnew]
      simp

/-- Witness for C1 at a concrete store: with only a live `(a, version 1)`
resident, an incoming config at version 2 is accepted. -/
theorem c1_insert_acceptance_witness :
    (⟨[("a", ⟨"t", "a", 1, ()⟩)], []⟩ : TypeConfigs Unit).isNewConfig "a" 2 = true :=
  ((c1_insert_acceptance (⟨[("a", ⟨"t", "a", 1, ()⟩)], []⟩ : TypeConfigs Unit) "a" 2
    (Or.inr rfl)).1).mpr (Or.inr (Or.inl ⟨⟨"t", "a", 1, ()⟩, rfl, by decide⟩))

end Gosconf
